import Mathlib

/-!
Verification development for the `@hy_ong/monitor` library: a mutual-exclusion
monitor with condition variables for a single-threaded cooperative (async/await)
execution model.

The repository ships only the public declarations (`dist/index.d.ts`) and the
test suite; the method bodies are not part of the sources.  The state machine
below is therefore modelled from the specification (`spec.md` §3–§4.3), except
where the shipped tests pin down behaviour the specification leaves open or
contradicts: the tests require that after a condition wait the original
`LockOwner` object is reinstated as the current owner (otherwise
`synchronize`'s final `exit(owner)` would throw inside every wait-based test).

Layout: all definitions first, then the theorems.
-/

/-- Error kind signalled on ownership violations (`ThreadError` in the source
declarations). -/
inductive MonError where
  | threadError
deriving DecidableEq

/-- Owner token, from `interface LockOwner { id: symbol; count: number }`.
JavaScript symbols are modelled as naturals minted from a monotone counter;
`count` is the reentrancy depth (always 1 on fresh mints). -/
structure LockOwner where
  id : Nat
  count : Nat
deriving DecidableEq

/-- Modelled from the spec: the Monitor Core's lock state (§3 Lock State) and
its two admission queues, mirroring `MonitorMixin`'s private fields `locked`,
`owner`, `lockQueue`, `condQueue`.  Suspended continuations are identified by
the requesting computation's numeric id; a Reacquisition Queue entry keeps the
owner state captured by `releaseForWait` (per the src tests, that very token is
reinstated on reacquisition).  `nextId` is the fresh-symbol supply. -/
structure MonitorState where
  locked : Bool
  owner : Option LockOwner
  lockQueue : List Nat
  condQueue : List (Nat × LockOwner)
  nextId : Nat
deriving DecidableEq

namespace MonitorState

/-- The freshly created monitor: unlocked, no owner, empty queues. -/
def init : MonitorState :=
  { locked := false, owner := none, lockQueue := [], condQueue := [], nextId := 0 }

/-- Modelled from the spec: `monLocked()` returns the current `occupied` flag. -/
def monLocked (s : MonitorState) : Bool :=
  s.locked

/-- Modelled from the spec: `monOwned(token?)` returns false when no token is
supplied, else whether the supplied token equals the current owner. -/
def monOwned (s : MonitorState) (tok : Option LockOwner) : Bool :=
  match tok with
  | none => false
  | some t => decide (s.owner = some t)

/-- Modelled from the spec: the wakeup scheduler shared by `exit` and
`releaseForWait` (§4.3).  Input is a state whose occupancy was just cleared.
If the Reacquisition Queue is non-empty its head is granted (reinstating the
captured owner token, per the src tests); else the head of the Lock Queue is
granted a freshly minted token; else the section stays unoccupied.  Returns
the grant (requester id and token) together with the updated state. -/
def wakeupNext (s : MonitorState) : Option (Nat × LockOwner) × MonitorState :=
  match s.condQueue with
  | (tid, saved) :: rest =>
      (some (tid, saved),
        { s with locked := true, owner := some saved, condQueue := rest })
  | [] =>
      match s.lockQueue with
      | tid :: rest =>
          let t : LockOwner := { id := s.nextId, count := 1 }
          (some (tid, t),
            { s with locked := true, owner := some t, lockQueue := rest,
                     nextId := s.nextId + 1 })
      | [] => (none, s)

/-- Modelled from the spec: `tryEnter()` (§4.1).  If unoccupied, mint a token
and occupy; if occupied, return no token and leave the queues untouched. -/
def tryEnter (s : MonitorState) : Option LockOwner × MonitorState :=
  if s.locked then (none, s)
  else
    let t : LockOwner := { id := s.nextId, count := 1 }
    (some t, { s with locked := true, owner := some t, nextId := s.nextId + 1 })

/-- Modelled from the spec: the `enter()` request of computation `tid` (§4.1).
If unoccupied, mint a token and grant immediately; if occupied, append the
requester to the Lock Queue (the grant happens later via `wakeupNext`). -/
def enterRequest (s : MonitorState) (tid : Nat) : Option LockOwner × MonitorState :=
  if s.locked then
    (none, { s with lockQueue := s.lockQueue ++ [tid] })
  else
    let t : LockOwner := { id := s.nextId, count := 1 }
    (some t, { s with locked := true, owner := some t, nextId := s.nextId + 1 })

/-- Modelled from the spec: `exit(token)` (§4.1).  On a token mismatch
(including an unoccupied section) it signals `ThreadError` and the state is
returned unchanged; on success occupancy and owner are cleared and the wakeup
scheduler runs.  The first component reports the error, the second a grant. -/
def exitRun (s : MonitorState) (tok : LockOwner) :
    Option MonError × Option (Nat × LockOwner) × MonitorState :=
  if s.owner = some tok then
    let r := wakeupNext { s with locked := false, owner := none }
    (none, r.1, r.2)
  else
    (some MonError.threadError, none, s)

/-- Modelled from the spec: `releaseForWait` / `_exitForCond` (§4.1).  Requires
the section to be occupied (asserted from occupancy, not from a caller
identity); captures the current owner state, clears occupancy and owner, and
runs the wakeup scheduler. -/
def exitForCond (s : MonitorState) :
    Except MonError (LockOwner × Option (Nat × LockOwner) × MonitorState) :=
  match s.owner with
  | some o =>
      let r := wakeupNext { s with locked := false, owner := none }
      Except.ok (o, r.1, r.2)
  | none => Except.error MonError.threadError

/-- Modelled from the spec: `reacquireForWait` / `_enterForCond` (§4.1), with
one correction forced by the src tests: when the section is unoccupied the
reacquisition succeeds immediately (the `wait(10)` timeout test reacquires
with no other computation present, so queueing unconditionally would
deadlock).  When occupied, the computation and its captured owner state are
appended to the Reacquisition Queue and the grant happens later via
`wakeupNext`.  Returns the immediately granted token, if any. -/
def enterForCond (s : MonitorState) (tid : Nat) (saved : LockOwner) :
    Option LockOwner × MonitorState :=
  if s.locked then
    (none, { s with condQueue := s.condQueue ++ [(tid, saved)] })
  else
    (some saved, { s with locked := true, owner := some saved })

end MonitorState

/-- Modelled from the spec: `signal()` on a condition variable's own FIFO queue
(§4.2): if non-empty, remove the head record and mark it signaled; otherwise a
no-op — the signal is not stored.  Returns the claimed waiter, if any. -/
def cvSignal (q : List Nat) : Option Nat × List Nat :=
  match q with
  | [] => (none, [])
  | w :: rest => (some w, rest)

/-- Modelled from the spec: `broadcast()` (§4.2): removes and marks every
current record, in FIFO order.  Returns the claimed waiters. -/
def cvBroadcast (q : List Nat) : List Nat × List Nat :=
  (q, [])

/-- Modelled from the spec: the timeout path of a waiter record (§3): the timer
acts only if the record is still present in the queue (a signal that claimed it
first makes the timer a no-op).  Returns whether the timeout claimed the
record. -/
def cvTimeoutFire (q : List Nat) (w : Nat) : Bool × List Nat :=
  if w ∈ q then (true, q.erase w) else (false, q)

/-- Modelled from the spec: ownership precondition shared by every condition
variable operation (§4.2): all operations assume the caller currently occupies
the bound Core's section; violation signals an ownership error.  With no
ambient caller identity (§9), occupancy is the assertable proxy. -/
def cvCheckOwned (s : MonitorState) : Except MonError Unit :=
  if s.locked then Except.ok () else Except.error MonError.threadError

/-- Modelled from the spec: the synchronous entry of `ConditionVariable.wait`
(§4.2 step 1): the ownership check via `releaseForWait`, which fails with
`ThreadError` when the section is not held. -/
def cvWaitOp (s : MonitorState) :
    Except MonError (LockOwner × Option (Nat × LockOwner) × MonitorState) :=
  s.exitForCond

/-- Modelled from the spec: `signal()` including its ownership check. -/
def cvSignalOp (s : MonitorState) (q : List Nat) :
    Except MonError (Option Nat × List Nat) :=
  match cvCheckOwned s with
  | Except.ok _ => Except.ok (cvSignal q)
  | Except.error e => Except.error e

/-- Modelled from the spec: `broadcast()` including its ownership check. -/
def cvBroadcastOp (s : MonitorState) (q : List Nat) :
    Except MonError (List Nat × List Nat) :=
  match cvCheckOwned s with
  | Except.ok _ => Except.ok (cvBroadcast q)
  | Except.error e => Except.error e

/-- Result of a timed `waitWhile`/`waitUntil` loop: the boolean outcome, the
list of time budgets handed to the successive inner `wait` calls, and the
portion of the overall budget left at return. -/
structure WaitLoopResult where
  result : Bool
  budgets : List Nat
  leftover : Nat
deriving DecidableEq

/-- Modelled from the spec: the timed `waitWhile(predicate, timeoutMillis)`
loop (§4.2): one overall deadline governs the call; each inner `wait` receives
the remaining budget.  `pred n` is the value of `predicate()` at its `n`-th
evaluation (performed under the re-acquired section); `dur n` is the physical
time consumed by the `n`-th inner wait (clamped to at least one time unit —
a suspension cannot resume instantly — and to at most its own budget, since
the inner wait times out when its budget elapses). -/
def waitWhileRun (pred : Nat → Bool) (dur : Nat → Nat) (remaining iter : Nat) :
    WaitLoopResult :=
  if pred iter = false then ⟨true, [], remaining⟩
  else if h : remaining = 0 then ⟨false, [], 0⟩
  else
    let spent := min (max (dur iter) 1) remaining
    let r := waitWhileRun pred dur (remaining - spent) (iter + 1)
    ⟨r.result, remaining :: r.budgets, r.leftover⟩
termination_by remaining
decreasing_by
  have h1 : 1 ≤ min (max (dur iter) 1) remaining :=
    le_min (le_max_right _ _) (Nat.one_le_iff_ne_zero.mpr h)
  omega

/-- Modelled from the spec: the timed `waitUntil(predicate, timeoutMillis)`
loop (§4.2): loops while `!predicate()`, under the same overall deadline. -/
def waitUntilRun (pred : Nat → Bool) (dur : Nat → Nat) (remaining iter : Nat) :
    WaitLoopResult :=
  if pred iter = true then ⟨true, [], remaining⟩
  else if h : remaining = 0 then ⟨false, [], 0⟩
  else
    let spent := min (max (dur iter) 1) remaining
    let r := waitUntilRun pred dur (remaining - spent) (iter + 1)
    ⟨r.result, remaining :: r.budgets, r.leftover⟩
termination_by remaining
decreasing_by
  have h1 : 1 ≤ min (max (dur iter) 1) remaining :=
    le_min (le_max_right _ _) (Nat.one_le_iff_ne_zero.mpr h)
  omega

/-- First-order programs run by the modelled computations.  `push m` records
marker `m` in the shared trace (the tests' `results.push(...)`); `enter`/`exit`
use the monitor through the thread's token register; `wait cv timed` performs a
condition wait on variable `cv` (with or without a timeout armed);
`pushIfRes a b` records `a` if the thread's last wait was signaled and `b` if
it timed out; `pushIfOwned a b` records `a` if the thread's token register
currently owns the monitor, else `b`; `pushIfTok t a b` records `a` if the
token register holds exactly `t` and `t` is the monitor's current owner,
else `b`. -/
inductive Prog where
  | done
  | push (m : Nat) (k : Prog)
  | enter (k : Prog)
  | exit (k : Prog)
  | wait (cv : Nat) (timed : Bool) (k : Prog)
  | signal (cv : Nat) (k : Prog)
  | broadcast (cv : Nat) (k : Prog)
  | pushIfRes (a b : Nat) (k : Prog)
  | pushIfOwned (a b : Nat) (k : Prog)
  | pushIfTok (t : LockOwner) (a b : Nat) (k : Prog)
deriving DecidableEq

/-- Phase of a modelled computation.  `run` is ready to take its next atomic
action; `blockedEnter` is suspended in `enter` on the Lock Queue; `waitingCV`
is suspended in a condition wait on variable `cv` (`timed` whether a timer is
armed, `saved` the owner state captured by `releaseForWait`); `blockedReacq`
was resolved (signaled or timed out) and is suspended on the Reacquisition
Queue; `terminated` is finished. -/
inductive Phase where
  | run (p : Prog)
  | blockedEnter (p : Prog)
  | waitingCV (cv : Nat) (timed : Bool) (saved : LockOwner) (p : Prog)
  | blockedReacq (p : Prog)
  | terminated
deriving DecidableEq

/-- A modelled computation: its phase, its token register (the `LockOwner`
value it currently holds from `enter`, if any) and the outcome of its last
condition wait (`some true` signaled, `some false` timed out). -/
structure Thread where
  phase : Phase
  tok : Option LockOwner
  res : Option Bool
deriving DecidableEq

/-- A configuration of the cooperative interleaving semantics: the Monitor
Core's state, the computations (indexed by position), the condition variables'
own waiter queues (indexed by position) and the shared observation trace. -/
structure Config where
  mon : MonitorState
  threads : List Thread
  cvs : List (List Nat)
  trace : List Nat
deriving DecidableEq

/-- Deliver a wakeup grant: the granted computation (suspended on the Lock
Queue or the Reacquisition Queue) resumes, storing the granted token in its
register. -/
def applyGrant (g : Option (Nat × LockOwner)) (ths : List Thread) : List Thread :=
  match g with
  | none => ths
  | some (tid, t) =>
      match ths[tid]? with
      | some th =>
          match th.phase with
          | Phase.blockedEnter p =>
              ths.set tid { th with phase := Phase.run p, tok := some t }
          | Phase.blockedReacq p =>
              ths.set tid { th with phase := Phase.run p, tok := some t }
          | _ => ths
      | none => ths

/-- Resolve waiter `w` with outcome `r` (true = signaled, false = timed out):
its record was already removed from the condition variable's queue; it
requests reacquisition of the section (spec §4.2 steps 3–4), resuming at once
if the section is free and queueing on the Reacquisition Queue otherwise. -/
def resolveWaiter (c : Config) (w : Nat) (r : Bool) : Config :=
  match c.threads[w]? with
  | some th =>
      match th.phase with
      | Phase.waitingCV _ _ saved p =>
          match c.mon.enterForCond w saved with
          | (some t, m) =>
              { c with
                  threads := c.threads.set w
                    { th with phase := Phase.run p, tok := some t, res := some r },
                  mon := m }
          | (none, m) =>
              { c with
                  threads := c.threads.set w
                    { th with phase := Phase.blockedReacq p, res := some r },
                  mon := m }
      | _ => c
  | none => c

/-- Resolve a list of waiters as signaled, in FIFO order (`broadcast`). -/
def resolveAllSignaled (c : Config) : List Nat → Config
  | [] => c
  | w :: ws => resolveAllSignaled (resolveWaiter c w true) ws

/-- Clear occupancy on behalf of computation `i` (whose thread record becomes
`th'`), run the wakeup scheduler and deliver its grant: the shared release
path of `exit` and `releaseForWait` (spec §4.3). -/
def releaseWakeup (c : Config) (i : Nat) (th' : Thread) : Config :=
  let r := MonitorState.wakeupNext { c.mon with locked := false, owner := none }
  { c with mon := r.2, threads := applyGrant r.1 (c.threads.set i th') }

/-- One atomic action of computation `i`, if an action is enabled (`none`
otherwise).  Atomic actions are exactly the segments between the model's
suspension points: enter (immediate or queueing), each marker append, exit
with its synchronous wakeup, the release half of a condition wait, a
signal/broadcast, and the firing of a wait's timer. -/
def stepThread (c : Config) (i : Nat) : Option Config :=
  match c.threads[i]? with
  | none => none
  | some th =>
    match th.phase with
    | Phase.run p =>
      match p with
      | Prog.done =>
          some { c with threads := c.threads.set i { th with phase := Phase.terminated } }
      | Prog.push m k =>
          some { c with
                   threads := c.threads.set i { th with phase := Phase.run k },
                   trace := c.trace ++ [m] }
      | Prog.pushIfRes a b k =>
          some { c with
                   threads := c.threads.set i { th with phase := Phase.run k },
                   trace := c.trace ++ [if th.res = some true then a else b] }
      | Prog.pushIfOwned a b k =>
          some { c with
                   threads := c.threads.set i { th with phase := Phase.run k },
                   trace := c.trace ++
                     [match th.tok with
                      | some t => if c.mon.owner = some t then a else b
                      | none => b] }
      | Prog.pushIfTok t a b k =>
          some { c with
                   threads := c.threads.set i { th with phase := Phase.run k },
                   trace := c.trace ++
                     [if th.tok = some t ∧ c.mon.owner = some t then a else b] }
      | Prog.enter k =>
          match th.tok with
          | some _ => none
          | none =>
            match c.mon.enterRequest i with
            | (some t, m) =>
                some { c with
                         mon := m,
                         threads := c.threads.set i
                           { th with phase := Phase.run k, tok := some t } }
            | (none, m) =>
                some { c with
                         mon := m,
                         threads := c.threads.set i
                           { th with phase := Phase.blockedEnter k } }
      | Prog.exit k =>
          match th.tok with
          | none => none
          | some t =>
            if c.mon.owner = some t then
              some (releaseWakeup c i { th with phase := Phase.run k, tok := none })
            else none
      | Prog.wait cv timed k =>
          match th.tok with
          | none => none
          | some t =>
            if c.mon.owner = some t then
              match c.cvs[cv]? with
              | none => none
              | some q =>
                some { releaseWakeup c i
                         { th with phase := Phase.waitingCV cv timed t k,
                                   tok := none, res := none } with
                         cvs := c.cvs.set cv (q ++ [i]) }
            else none
      | Prog.signal cv k =>
          if c.mon.locked then
            match c.cvs[cv]? with
            | none => none
            | some [] =>
                some { c with threads := c.threads.set i { th with phase := Phase.run k } }
            | some (w :: rest) =>
                some (resolveWaiter
                  { c with cvs := c.cvs.set cv rest,
                           threads := c.threads.set i { th with phase := Phase.run k } }
                  w true)
          else none
      | Prog.broadcast cv k =>
          if c.mon.locked then
            match c.cvs[cv]? with
            | none => none
            | some q =>
                some (resolveAllSignaled
                  { c with cvs := c.cvs.set cv [],
                           threads := c.threads.set i { th with phase := Phase.run k } }
                  q)
          else none
    | Phase.waitingCV cv timed _ _ =>
        if timed then
          match c.cvs[cv]? with
          | none => none
          | some q =>
              if i ∈ q then
                some (resolveWaiter { c with cvs := c.cvs.set cv (q.erase i) } i false)
              else none
        else none
    | Phase.blockedEnter _ => none
    | Phase.blockedReacq _ => none
    | Phase.terminated => none

/-- All one-step successors of a configuration. -/
def succs (c : Config) : List Config :=
  (List.range c.threads.length).filterMap (stepThread c)

/-- The interleaving step relation: some enabled computation takes one atomic
action. -/
def Step (c c' : Config) : Prop :=
  c' ∈ succs c

/-- Reachability under arbitrary cooperative interleaving. -/
def Reach (c c' : Config) : Prop :=
  Relation.ReflTransGen Step c c'

/-- Run a given schedule (list of thread indices), ignoring disabled picks. -/
def runSteps (c : Config) : List Nat → Config
  | [] => c
  | i :: is =>
      match stepThread c i with
      | some c' => runSteps c' is
      | none => c

/-- Check that every pick in a schedule is enabled. -/
def stepsOk (c : Config) : List Nat → Bool
  | [] => true
  | i :: is =>
      match stepThread c i with
      | some c' => stepsOk c' is
      | none => false

/-- Insert the not-yet-seen elements of `xs` into the accumulator, returning
the grown accumulator and the genuinely new elements. -/
def addNew (acc : List Config) (xs : List Config) : List Config × List Config :=
  xs.foldl
    (fun p x => if x ∈ p.1 then p else (p.1 ++ [x], p.2 ++ [x]))
    (acc, [])

/-- Bounded breadth-first exploration of the reachable configurations. -/
def exploreAux : Nat → List Config → List Config → List Config
  | 0, _, acc => acc
  | _ + 1, [], acc => acc
  | fuel + 1, c :: frontier, acc =>
      let p := addNew acc (succs c)
      exploreAux fuel (frontier ++ p.2) p.1

/-- The set of configurations explored from `c` with the given fuel. -/
def explore (fuel : Nat) (c : Config) : List Config :=
  exploreAux fuel [c] [c]

/-- Is the configuration list closed under the step relation? -/
def decideClosed (S : List Config) : Bool :=
  S.all fun c => (succs c).all fun c' => c' ∈ S

/-- A computation that has not started interacting with the monitor yet. -/
def mkThread (p : Prog) : Thread :=
  { phase := Phase.run p, tok := none, res := none }

/-- Is the configuration terminal (no computation can take a step)? -/
def terminalB (c : Config) : Bool :=
  decide (succs c = [])

/-- Do all terminal configurations of the list satisfy the check? -/
def checkFinals (S : List Config) (ok : Config → Bool) : Bool :=
  S.all fun c => !terminalB c || ok c

/-- The mutual-exclusion test scenario (`should execute block with mutual
exclusion`): two computations, each entering the section, appending two
markers with a suspension point in between, and exiting. -/
def mutexInit : Config :=
  { mon := MonitorState.init,
    threads :=
      [mkThread (Prog.enter (Prog.push 1 (Prog.push 2 (Prog.exit Prog.done)))),
       mkThread (Prog.enter (Prog.push 3 (Prog.push 4 (Prog.exit Prog.done))))],
    cvs := [],
    trace := [] }

/-- The reacquisition-priority scenario: computation 0 (`W`) is suspended in a
condition wait on variable 0 (having held token `⟨0,1⟩` before releasing);
computation 1 (`S`) holds the section with token `⟨2,1⟩` and will signal and
exit; computation 2 (`E`) is a brand-new entrant queued on the Lock Queue.
`W` appends marker 1, `E` appends marker 2. -/
def wakeupInit : Config :=
  { mon :=
      { locked := true, owner := some { id := 2, count := 1 },
        lockQueue := [2], condQueue := [], nextId := 3 },
    threads :=
      [{ phase := Phase.waitingCV 0 false { id := 0, count := 1 }
           (Prog.push 1 (Prog.exit Prog.done)),
         tok := none, res := none },
       { phase := Phase.run (Prog.signal 0 (Prog.exit Prog.done)),
         tok := some { id := 2, count := 1 }, res := none },
       { phase := Phase.blockedEnter (Prog.push 2 (Prog.exit Prog.done)),
         tok := none, res := none }],
    cvs := [[0]],
    trace := [] }

/-- The wait-outcome scenario: computation 0 enters, performs a timed wait on
variable 0, then records whether it holds the section again (5 = held,
6 = not held) and its wait outcome (1 = signaled, 2 = timed out), then exits;
computation 1 enters, signals once and exits. -/
def waitOutcomeInit : Config :=
  { mon := MonitorState.init,
    threads :=
      [mkThread (Prog.enter (Prog.wait 0 true
         (Prog.pushIfOwned 5 6 (Prog.pushIfRes 1 2 (Prog.exit Prog.done))))),
       mkThread (Prog.enter (Prog.signal 0 (Prog.exit Prog.done)))],
    cvs := [[]],
    trace := [] }

/-- The signal-wakes-exactly-one scenario (`should wake up only one waiter
with signal`): computations 0 and 1 are both suspended in untimed waits on
variable 0 (0 arrived first); computation 2 enters, signals once and exits. -/
def signalOnceInit : Config :=
  { mon :=
      { locked := false, owner := none, lockQueue := [], condQueue := [],
        nextId := 2 },
    threads :=
      [{ phase := Phase.waitingCV 0 false { id := 0, count := 1 }
           (Prog.push 1 (Prog.exit Prog.done)),
         tok := none, res := none },
       { phase := Phase.waitingCV 0 false { id := 1, count := 1 }
           (Prog.push 2 (Prog.exit Prog.done)),
         tok := none, res := none },
       mkThread (Prog.enter (Prog.signal 0 (Prog.exit Prog.done)))],
    cvs := [[0, 1]],
    trace := [] }

/-- The token-reinstatement scenario (`should wait for signal`): computation 0
is suspended in an untimed wait on variable 0, having obtained token `⟨0,1⟩`
from `enter` before waiting; on resumption it records whether that very token
is again the monitor's current owner (1 = yes, 2 = no) and then exits with it;
computation 1 enters, signals and exits. -/
def reinstateInit : Config :=
  { mon :=
      { locked := false, owner := none, lockQueue := [], condQueue := [],
        nextId := 1 },
    threads :=
      [{ phase := Phase.waitingCV 0 false { id := 0, count := 1 }
           (Prog.pushIfTok { id := 0, count := 1 } 1 2 (Prog.exit Prog.done)),
         tok := none, res := none },
       mkThread (Prog.enter (Prog.signal 0 (Prog.exit Prog.done)))],
    cvs := [[0]],
    trace := [] }

/-- The explored reachable sets of the five scenarios. -/
def mutexReach : List Config := explore 100 mutexInit

def wakeupReach : List Config := explore 100 wakeupInit

def waitOutcomeReach : List Config := explore 100 waitOutcomeInit

def signalOnceReach : List Config := explore 100 signalOnceInit

def reinstateReach : List Config := explore 100 reinstateInit

/-- Number of computations currently inside the protected section (holding a
token). -/
def holderCount (c : Config) : Nat :=
  (c.threads.filter fun th => th.tok.isSome).length

/-- Is this Lock Queue entry well-formed: a real computation, suspended in
`enter`, holding no token? -/
def okLockEntry (c : Config) (tid : Nat) : Bool :=
  match c.threads[tid]? with
  | some th =>
      (match th.phase with
       | Phase.blockedEnter _ => true
       | _ => false) && th.tok.isNone
  | none => false

/-- Is this Reacquisition Queue entry well-formed: a real computation,
suspended awaiting reacquisition, holding no token? -/
def okCondEntry (c : Config) (e : Nat × LockOwner) : Bool :=
  match c.threads[e.1]? with
  | some th =>
      (match th.phase with
       | Phase.blockedReacq _ => true
       | _ => false) && th.tok.isNone
  | none => false

/-- Is this entry of condition variable `k`'s queue well-formed: a real
computation, suspended in a wait on variable `k`, holding no token? -/
def okCvEntry (c : Config) (k : Nat) (tid : Nat) : Bool :=
  match c.threads[tid]? with
  | some th =>
      (match th.phase with
       | Phase.waitingCV cv _ _ _ => decide (cv = k)
       | _ => false) && th.tok.isNone
  | none => false

/-- The global well-formedness invariant of the cooperative semantics.
`lockedIff` is the spec's Lock State invariant (`occupied == false ⇔
currentOwner == empty`); `holderOwner` says a held token is the current
owner; `holderUnique` is mutual exclusion (at most one computation holds a
token); the remaining fields say the three kinds of queues hold exactly
suspended computations of the matching phase, without duplicates. -/
structure ConfigInv (c : Config) : Prop where
  lockedIff : c.mon.locked = c.mon.owner.isSome
  holderOwner : ∀ (i : Nat) (th : Thread) (t : LockOwner),
    c.threads[i]? = some th → th.tok = some t → c.mon.owner = some t
  holderUnique : ∀ (i j : Nat) (thi thj : Thread), c.threads[i]? = some thi →
    c.threads[j]? = some thj → thi.tok.isSome = true → thj.tok.isSome = true →
    i = j
  lockQOk : ∀ tid ∈ c.mon.lockQueue, okLockEntry c tid = true
  condQOk : ∀ e ∈ c.mon.condQueue, okCondEntry c e = true
  cvOk : ∀ (k : Nat) (q : List Nat), c.cvs[k]? = some q →
    ∀ tid ∈ q, okCvEntry c k tid = true
  lockQNodup : c.mon.lockQueue.Nodup
  condQNodup : (c.mon.condQueue.map Prod.fst).Nodup
  cvNodup : ∀ (k : Nat) (q : List Nat), c.cvs[k]? = some q → q.Nodup

/-- Decidable check implying `ConfigInv`. -/
def invB (c : Config) : Bool :=
  (c.mon.locked == c.mon.owner.isSome) &&
  (c.threads.all fun th =>
    match th.tok with
    | some t => c.mon.owner == some t
    | none => true) &&
  ((List.range c.threads.length).all fun i =>
    (List.range c.threads.length).all fun j =>
      match c.threads[i]?, c.threads[j]? with
      | some thi, some thj => !(thi.tok.isSome && thj.tok.isSome) || i == j
      | _, _ => true) &&
  (c.mon.lockQueue.all (okLockEntry c)) &&
  (c.mon.condQueue.all (okCondEntry c)) &&
  ((List.range c.cvs.length).all fun k =>
    match c.cvs[k]? with
    | some q => q.all (okCvEntry c k) && decide q.Nodup
    | none => true) &&
  (decide c.mon.lockQueue.Nodup) &&
  (decide (c.mon.condQueue.map Prod.fst).Nodup)

/-- Computation `i` is in none of the queues. -/
def notQueued (c : Config) (i : Nat) : Prop :=
  i ∉ c.mon.lockQueue ∧ (∀ e ∈ c.mon.condQueue, e.1 ≠ i) ∧
    ∀ (k : Nat) (q : List Nat), c.cvs[k]? = some q → i ∉ q

/-- The token-revalidation sequence refuting permanent invalidation:
computation 0 enters, waits on variable 0 and finally exits; computation 1
enters, signals and exits. -/
def revalInit : Config :=
  { mon := MonitorState.init,
    threads :=
      [mkThread (Prog.enter (Prog.wait 0 false (Prog.exit Prog.done))),
       mkThread (Prog.enter (Prog.signal 0 (Prog.exit Prog.done)))],
    cvs := [[]],
    trace := [] }

/-- Modelled from the spec: `waitWhile` including the ownership check shared
by all condition-variable operations (§4.2: all operations assume the caller
occupies the section; violation signals an ownership error). -/
def cvWaitWhileOp (s : MonitorState) (pred : Nat → Bool) (dur : Nat → Nat)
    (t : Nat) : Except MonError WaitLoopResult :=
  match cvCheckOwned s with
  | Except.ok _ => Except.ok (waitWhileRun pred dur t 0)
  | Except.error e => Except.error e

/-- Modelled from the spec: `waitUntil` including the ownership check. -/
def cvWaitUntilOp (s : MonitorState) (pred : Nat → Bool) (dur : Nat → Nat)
    (t : Nat) : Except MonError WaitLoopResult :=
  match cvCheckOwned s with
  | Except.ok _ => Except.ok (waitUntilRun pred dur t 0)
  | Except.error e => Except.error e

/-- Intermediate configurations of the wait-outcome scenario: after the waiter
has entered and suspended in a timed wait and the signaler has entered
(`waitEdgeA`), after the signal has resolved the wait (`waitEdgeB`), and after
the signaler's exit has granted reacquisition (`waitEdgeC`). -/
def waitEdgeA : Config := runSteps waitOutcomeInit [0, 0, 1]

def waitEdgeB : Config := runSteps waitOutcomeInit [0, 0, 1, 1]

def waitEdgeC : Config := runSteps waitOutcomeInit [0, 0, 1, 1, 1]

/-- The waiter's continuation after its wait in the wait-outcome scenario. -/
def waitKont : Prog :=
  Prog.pushIfOwned 5 6 (Prog.pushIfRes 1 2 (Prog.exit Prog.done))


/-! ## Theorems -/

theorem step_of_stepThread {c c' : Config} {i : Nat}
    (h : stepThread c i = some c') : Step c c' := by
  have hlt : i < c.threads.length := by
    by_contra hc
    have hnone : c.threads[i]? = none :=
      List.getElem?_eq_none (Nat.le_of_not_lt hc)
    unfold stepThread at h
    rw [hnone] at h
    exact Option.noConfusion h
  unfold Step succs
  exact List.mem_filterMap.mpr ⟨i, List.mem_range.mpr hlt, h⟩

theorem reach_runSteps (c : Config) (is : List Nat) (h : stepsOk c is = true) :
    Reach c (runSteps c is) := by
  induction is generalizing c with
  | nil => exact Relation.ReflTransGen.refl
  | cons i is ih =>
      unfold stepsOk at h
      unfold runSteps
      cases hs : stepThread c i with
      | none => rw [hs] at h; exact absurd h (by simp)
      | some c' =>
          rw [hs] at h
          exact Relation.ReflTransGen.head (step_of_stepThread hs) (ih c' h)

theorem reach_mem_of_closed {S : List Config} {c0 : Config}
    (h0 : c0 ∈ S) (hcl : decideClosed S = true) {c : Config} (hr : Reach c0 c) :
    c ∈ S := by
  induction hr with
  | refl => exact h0
  | tail _ hstep ih =>
      have h1 := List.all_eq_true.mp hcl _ ih
      have h2 := List.all_eq_true.mp h1 _ hstep
      exact of_decide_eq_true h2

theorem configInv_of_invB {c : Config} (h : invB c = true) : ConfigInv c := by
  unfold invB at h
  simp only [Bool.and_eq_true] at h
  obtain ⟨⟨⟨⟨⟨⟨⟨h1, h2⟩, h3⟩, h4⟩, h5⟩, h6⟩, h7⟩, h8⟩ := h
  constructor
  · exact beq_iff_eq.mp h1
  · intro i th t hi htok
    have hmem : th ∈ c.threads := List.getElem?_mem hi
    have := List.all_eq_true.mp h2 th hmem
    rw [htok] at this
    exact beq_iff_eq.mp this
  · intro i j thi thj hi hj hsi hsj
    have hilt : i < c.threads.length := by
      by_contra hc
      rw [List.getElem?_eq_none (Nat.le_of_not_lt hc)] at hi
      exact Option.noConfusion hi
    have hjlt : j < c.threads.length := by
      by_contra hc
      rw [List.getElem?_eq_none (Nat.le_of_not_lt hc)] at hj
      exact Option.noConfusion hj
    have hall := List.all_eq_true.mp
      (List.all_eq_true.mp h3 i (List.mem_range.mpr hilt)) j
      (List.mem_range.mpr hjlt)
    rw [hi, hj] at hall
    simp only [hsi, hsj] at hall
    simpa using hall
  · intro tid hmem
    exact List.all_eq_true.mp h4 tid hmem
  · intro e hmem
    exact List.all_eq_true.mp h5 e hmem
  · intro k q hk tid hmem
    have hklt : k < c.cvs.length := by
      by_contra hc
      rw [List.getElem?_eq_none (Nat.le_of_not_lt hc)] at hk
      exact Option.noConfusion hk
    have := List.all_eq_true.mp h6 k (List.mem_range.mpr hklt)
    rw [hk] at this
    simp only [Bool.and_eq_true] at this
    exact List.all_eq_true.mp this.1 tid hmem
  · exact of_decide_eq_true h7
  · exact of_decide_eq_true h8
  · intro k q hk
    have hklt : k < c.cvs.length := by
      by_contra hc
      rw [List.getElem?_eq_none (Nat.le_of_not_lt hc)] at hk
      exact Option.noConfusion hk
    have := List.all_eq_true.mp h6 k (List.mem_range.mpr hklt)
    rw [hk] at this
    simp only [Bool.and_eq_true] at this
    exact of_decide_eq_true this.2

theorem holderCount_le_one_of_unique (l : List Thread)
    (h : ∀ (i j : Nat) (thi thj : Thread), l[i]? = some thi →
      l[j]? = some thj → thi.tok.isSome = true → thj.tok.isSome = true →
      i = j) :
    (l.filter fun th => th.tok.isSome).length ≤ 1 := by
  induction l with
  | nil => simp
  | cons a l ih =>
      by_cases ha : a.tok.isSome = true
      · have hl : ∀ th ∈ l, ¬(th.tok.isSome = true) := by
          intro th hmem hth
          obtain ⟨j, hj⟩ := List.mem_iff_getElem?.mp hmem
          have h0 : (a :: l)[0]? = some a := by simp
          have hj1 : (a :: l)[j + 1]? = some th := by
            simpa using hj
          exact Nat.noConfusion (h 0 (j + 1) a th h0 hj1 ha hth)
        have hfil : l.filter (fun th => th.tok.isSome) = [] := by
          apply List.filter_eq_nil_iff.mpr
          intro th hmem
          simpa using hl th hmem
        simp [List.filter_cons, ha, hfil]
      · have h' : ∀ (i j : Nat) (thi thj : Thread), l[i]? = some thi →
            l[j]? = some thj → thi.tok.isSome = true →
            thj.tok.isSome = true → i = j := by
          intro i j thi thj hi hj hsi hsj
          have hi1 : (a :: l)[i + 1]? = some thi := by simpa using hi
          have hj1 : (a :: l)[j + 1]? = some thj := by simpa using hj
          exact Nat.succ_injective (h (i + 1) (j + 1) thi thj hi1 hj1 hsi hsj)
        rw [List.filter_cons, if_neg (by simpa using ha)]
        exact ih h'

theorem okLockEntry_congr {c c' : Config} (tid : Nat)
    (hth : c'.threads[tid]? = c.threads[tid]?) :
    okLockEntry c' tid = okLockEntry c tid := by
  unfold okLockEntry
  rw [hth]

theorem okCondEntry_congr {c c' : Config} (e : Nat × LockOwner)
    (hth : c'.threads[e.1]? = c.threads[e.1]?) :
    okCondEntry c' e = okCondEntry c e := by
  unfold okCondEntry
  rw [hth]

theorem okCvEntry_congr {c c' : Config} (k tid : Nat)
    (hth : c'.threads[tid]? = c.threads[tid]?) :
    okCvEntry c' k tid = okCvEntry c k tid := by
  unfold okCvEntry
  rw [hth]

theorem lt_length_of_getElem? {α : Type} {l : List α} {i : Nat} {a : α}
    (h : l[i]? = some a) : i < l.length := by
  by_contra hc
  rw [List.getElem?_eq_none (Nat.le_of_not_lt hc)] at h
  exact Option.noConfusion h

theorem notQueued_of_phase {c : Config} (h : ConfigInv c) {i : Nat}
    {th : Thread} (hi : c.threads[i]? = some th)
    (hbe : ∀ p, th.phase ≠ Phase.blockedEnter p)
    (hbr : ∀ p, th.phase ≠ Phase.blockedReacq p)
    (hw : ∀ cv ti sv p, th.phase ≠ Phase.waitingCV cv ti sv p) :
    notQueued c i := by
  obtain ⟨ph, tk, rs⟩ := th
  refine ⟨?_, ?_, ?_⟩
  · intro hmem
    have hok := h.lockQOk i hmem
    unfold okLockEntry at hok
    rw [hi] at hok
    cases ph with
    | blockedEnter p => exact hbe p rfl
    | run p => simp at hok
    | blockedReacq p => simp at hok
    | waitingCV cv ti sv p => simp at hok
    | terminated => simp at hok
  · intro e hmem hei
    have hok := h.condQOk e hmem
    unfold okCondEntry at hok
    rw [hei, hi] at hok
    cases ph with
    | blockedReacq p => exact hbr p rfl
    | run p => simp at hok
    | blockedEnter p => simp at hok
    | waitingCV cv ti sv p => simp at hok
    | terminated => simp at hok
  · intro k q hk hmem
    have hok := h.cvOk k q hk i hmem
    unfold okCvEntry at hok
    rw [hi] at hok
    cases ph with
    | waitingCV cv ti sv p => exact hw cv ti sv p rfl
    | run p => simp at hok
    | blockedEnter p => simp at hok
    | blockedReacq p => simp at hok
    | terminated => simp at hok

theorem getElem?_set_back {l : List Thread} {i j : Nat} {th' thj : Thread}
    (hj : (l.set i th')[j]? = some thj) :
    (j = i ∧ thj = th' ∧ i < l.length) ∨ (j ≠ i ∧ l[j]? = some thj) := by
  by_cases hji : j = i
  · subst hji
    have hlt : j < l.length := by
      have := lt_length_of_getElem? hj
      simpa using this
    rw [List.getElem?_set_eq_of_lt th' hlt] at hj
    exact Or.inl ⟨rfl, (Option.some_injective _ hj).symm, hlt⟩
  · rw [List.getElem?_set_ne (fun hc => hji hc.symm)] at hj
    exact Or.inr ⟨hji, hj⟩

theorem configInv_local {c : Config} (h : ConfigInv c) {i : Nat} {th : Thread}
    (th' : Thread) (tr : List Nat)
    (hi : c.threads[i]? = some th) (hnq : notQueued c i)
    (htok : th'.tok = th.tok) :
    ConfigInv { c with threads := c.threads.set i th', trace := tr } := by
  have hilt : i < c.threads.length := lt_length_of_getElem? hi
  have hset_ne : ∀ j, j ≠ i → (c.threads.set i th')[j]? = c.threads[j]? :=
    fun j hj => List.getElem?_set_ne (fun hc => hj hc.symm)
  constructor
  · exact h.lockedIff
  · intro j thj t hj htk
    rcases getElem?_set_back hj with ⟨hji, hth, _⟩ | ⟨hji, hj'⟩
    · subst hji
      subst hth
      rw [htok] at htk
      exact h.holderOwner j th t hi htk
    · exact h.holderOwner j thj t hj' htk
  · intro j k thj thk hj hk hsj hsk
    rcases getElem?_set_back hj with ⟨hji, hthj, _⟩ | ⟨hji, hj'⟩ <;>
      rcases getElem?_set_back hk with ⟨hki, hthk, _⟩ | ⟨hki, hk'⟩
    · rw [hji, hki]
    · subst hji
      subst hthj
      rw [htok] at hsj
      exact h.holderUnique j k th thk hi hk' hsj hsk
    · subst hki
      subst hthk
      rw [htok] at hsk
      exact h.holderUnique j k thj th hj' hi hsj hsk
    · exact h.holderUnique j k thj thk hj' hk' hsj hsk
  · intro tid hmem
    have htid : tid ≠ i := fun hc => hnq.1 (hc ▸ hmem)
    rw [show okLockEntry { c with threads := c.threads.set i th', trace := tr } tid
          = okLockEntry c tid from okLockEntry_congr tid (hset_ne tid htid)]
    exact h.lockQOk tid hmem
  · intro e hmem
    have he : e.1 ≠ i := hnq.2.1 e hmem
    rw [show okCondEntry { c with threads := c.threads.set i th', trace := tr } e
          = okCondEntry c e from okCondEntry_congr e (hset_ne e.1 he)]
    exact h.condQOk e hmem
  · intro k q hk tid hmem
    have htid : tid ≠ i := fun hc => hnq.2.2 k q hk (hc ▸ hmem)
    rw [show okCvEntry { c with threads := c.threads.set i th', trace := tr } k tid
          = okCvEntry c k tid from okCvEntry_congr k tid (hset_ne tid htid)]
    exact h.cvOk k q hk tid hmem
  · exact h.lockQNodup
  · exact h.condQNodup
  · exact h.cvNodup

theorem no_holder_of_unlocked {c : Config} (h : ConfigInv c)
    (hl : c.mon.locked = false) :
    ∀ (j : Nat) (thj : Thread), c.threads[j]? = some thj → thj.tok = none := by
  intro j thj hj
  cases htk : thj.tok with
  | none => rfl
  | some t =>
      have how := h.holderOwner j thj t hj htk
      have := h.lockedIff
      rw [hl, how] at this
      exact absurd this.symm (by simp)

theorem configInv_enterNow {c : Config} (h : ConfigInv c) {i : Nat}
    {th : Thread} (hi : c.threads[i]? = some th) (hnq : notQueued c i)
    (hl : c.mon.locked = false) (k : Prog) :
    ConfigInv { c with
      mon := { c.mon with
                 locked := true,
                 owner := some { id := c.mon.nextId, count := 1 },
                 nextId := c.mon.nextId + 1 },
      threads := c.threads.set i
        { th with phase := Phase.run k,
                  tok := some { id := c.mon.nextId, count := 1 } } } := by
  have hset_ne : ∀ j, j ≠ i →
      (c.threads.set i
        { th with
            phase := Phase.run k,
            tok := some { id := c.mon.nextId, count := 1 } })[j]? =
        c.threads[j]? :=
    fun j hj => List.getElem?_set_ne (fun hc => hj hc.symm)
  constructor
  · rfl
  · intro j thj t hj htk
    rcases getElem?_set_back hj with ⟨hji, hthj, _⟩ | ⟨hji, hj'⟩
    · subst hthj
      simpa using htk
    · have := no_holder_of_unlocked h hl j thj hj'
      rw [this] at htk
      exact Option.noConfusion htk
  · intro j l thj thl hj hl' hsj hsl
    rcases getElem?_set_back hj with ⟨hji, hthj, _⟩ | ⟨hji, hj'⟩ <;>
      rcases getElem?_set_back hl' with ⟨hli, hthl, _⟩ | ⟨hli, hl''⟩
    · rw [hji, hli]
    · have := no_holder_of_unlocked h hl l thl hl''
      rw [this] at hsl
      exact absurd hsl (by simp)
    · have := no_holder_of_unlocked h hl j thj hj'
      rw [this] at hsj
      exact absurd hsj (by simp)
    · have := no_holder_of_unlocked h hl j thj hj'
      rw [this] at hsj
      exact absurd hsj (by simp)
  · intro tid hmem
    have htid : tid ≠ i := fun hc => hnq.1 (hc ▸ hmem)
    rw [show okLockEntry _ tid = okLockEntry c tid from
          okLockEntry_congr tid (hset_ne tid htid)]
    exact h.lockQOk tid hmem
  · intro e hmem
    have he : e.1 ≠ i := hnq.2.1 e hmem
    rw [show okCondEntry _ e = okCondEntry c e from
          okCondEntry_congr e (hset_ne e.1 he)]
    exact h.condQOk e hmem
  · intro kk q hk tid hmem
    have htid : tid ≠ i := fun hc => hnq.2.2 kk q hk (hc ▸ hmem)
    rw [show okCvEntry _ kk tid = okCvEntry c kk tid from
          okCvEntry_congr kk tid (hset_ne tid htid)]
    exact h.cvOk kk q hk tid hmem
  · exact h.lockQNodup
  · exact h.condQNodup
  · exact h.cvNodup

theorem configInv_enterQueue {c : Config} (h : ConfigInv c) {i : Nat}
    {th : Thread} (hi : c.threads[i]? = some th) (hnq : notQueued c i)
    (htk : th.tok = none) (k : Prog) :
    ConfigInv { c with
      mon := { c.mon with lockQueue := c.mon.lockQueue ++ [i] },
      threads := c.threads.set i { th with phase := Phase.blockedEnter k } } := by
  have hilt : i < c.threads.length := lt_length_of_getElem? hi
  have hset_ne : ∀ j, j ≠ i →
      (c.threads.set i { th with phase := Phase.blockedEnter k })[j]? =
        c.threads[j]? :=
    fun j hj => List.getElem?_set_ne (fun hc => hj hc.symm)
  have hset_i : (c.threads.set i { th with phase := Phase.blockedEnter k })[i]? =
      some { th with phase := Phase.blockedEnter k } :=
    List.getElem?_set_eq_of_lt _ hilt
  constructor
  · exact h.lockedIff
  · intro j thj t hj htk'
    rcases getElem?_set_back hj with ⟨hji, hthj, _⟩ | ⟨hji, hj'⟩
    · subst hthj
      simp only at htk'
      rw [htk] at htk'
      exact Option.noConfusion htk'
    · exact h.holderOwner j thj t hj' htk'
  · intro j l thj thl hj hl hsj hsl
    rcases getElem?_set_back hj with ⟨hji, hthj, _⟩ | ⟨hji, hj'⟩ <;>
      rcases getElem?_set_back hl with ⟨hli, hthl, _⟩ | ⟨hli, hl'⟩
    · rw [hji, hli]
    · subst hthj
      simp only [htk] at hsj
      exact absurd hsj (by simp)
    · subst hthl
      simp only [htk] at hsl
      exact absurd hsl (by simp)
    · exact h.holderUnique j l thj thl hj' hl' hsj hsl
  · intro tid hmem
    rcases List.mem_append.mp hmem with hold | hnew
    · have htid : tid ≠ i := fun hc => hnq.1 (hc ▸ hold)
      rw [show okLockEntry _ tid = okLockEntry c tid from
            okLockEntry_congr tid (hset_ne tid htid)]
      exact h.lockQOk tid hold
    · have htid : tid = i := by simpa using hnew
      subst htid
      unfold okLockEntry
      rw [hset_i]
      simp [htk]
  · intro e hmem
    have he : e.1 ≠ i := hnq.2.1 e hmem
    rw [show okCondEntry _ e = okCondEntry c e from
          okCondEntry_congr e (hset_ne e.1 he)]
    exact h.condQOk e hmem
  · intro kk q hk tid hmem
    have htid : tid ≠ i := fun hc => hnq.2.2 kk q hk (hc ▸ hmem)
    rw [show okCvEntry _ kk tid = okCvEntry c kk tid from
          okCvEntry_congr kk tid (hset_ne tid htid)]
    exact h.cvOk kk q hk tid hmem
  · simp [List.nodup_append, h.lockQNodup, hnq.1]
  · exact h.condQNodup
  · exact h.cvNodup

theorem releaseWakeup_eq_cond {c : Config} {i : Nat} {th' : Thread}
    {w : Nat} {sv : LockOwner} {rest : List (Nat × LockOwner)}
    (hcq : c.mon.condQueue = (w, sv) :: rest) :
    releaseWakeup c i th' =
      { c with
          mon := { c.mon with
                     locked := true,
                     owner := some sv,
                     condQueue := rest },
          threads := applyGrant (some (w, sv)) (c.threads.set i th') } := by
  unfold releaseWakeup MonitorState.wakeupNext
  simp only [hcq]

theorem releaseWakeup_eq_lock {c : Config} {i : Nat} {th' : Thread}
    {w : Nat} {rest : List Nat}
    (hcq : c.mon.condQueue = []) (hlq : c.mon.lockQueue = w :: rest) :
    releaseWakeup c i th' =
      { c with
          mon := { c.mon with
                     locked := true,
                     owner := some { id := c.mon.nextId, count := 1 },
                     lockQueue := rest,
                     nextId := c.mon.nextId + 1 },
          threads := applyGrant (some (w, { id := c.mon.nextId, count := 1 }))
            (c.threads.set i th') } := by
  unfold releaseWakeup MonitorState.wakeupNext
  simp only [hcq, hlq]

theorem releaseWakeup_eq_none {c : Config} {i : Nat} {th' : Thread}
    (hcq : c.mon.condQueue = []) (hlq : c.mon.lockQueue = []) :
    releaseWakeup c i th' =
      { c with
          mon := { c.mon with locked := false, owner := none },
          threads := c.threads.set i th' } := by
  unfold releaseWakeup MonitorState.wakeupNext
  simp only [hcq, hlq]
  rfl

theorem applyGrant_eq_reacq {lst : List Thread} {w : Nat} {sv : LockOwner}
    {thw : Thread} {pw : Prog} (hw : lst[w]? = some thw)
    (hph : thw.phase = Phase.blockedReacq pw) :
    applyGrant (some (w, sv)) lst =
      lst.set w { thw with phase := Phase.run pw, tok := some sv } := by
  simp only [applyGrant, hw, hph]

theorem applyGrant_eq_enter {lst : List Thread} {w : Nat} {sv : LockOwner}
    {thw : Thread} {pw : Prog} (hw : lst[w]? = some thw)
    (hph : thw.phase = Phase.blockedEnter pw) :
    applyGrant (some (w, sv)) lst =
      lst.set w { thw with phase := Phase.run pw, tok := some sv } := by
  simp only [applyGrant, hw, hph]

theorem okLockEntry_elim {c : Config} {tid : Nat}
    (hok : okLockEntry c tid = true) :
    ∃ thw pw, c.threads[tid]? = some thw ∧
      thw.phase = Phase.blockedEnter pw ∧ thw.tok = none := by
  unfold okLockEntry at hok
  cases hth : c.threads[tid]? with
  | none => rw [hth] at hok; exact Bool.noConfusion hok
  | some thw =>
      rw [hth] at hok
      obtain ⟨ph, tk, rs⟩ := thw
      cases ph with
      | blockedEnter p =>
          simp only [Bool.and_eq_true] at hok
          exact ⟨_, p, rfl, rfl, Option.isNone_iff_eq_none.mp hok.2⟩
      | run p => simp at hok
      | blockedReacq p => simp at hok
      | waitingCV cv ti sv p => simp at hok
      | terminated => simp at hok

theorem okCondEntry_elim {c : Config} {e : Nat × LockOwner}
    (hok : okCondEntry c e = true) :
    ∃ thw pw, c.threads[e.1]? = some thw ∧
      thw.phase = Phase.blockedReacq pw ∧ thw.tok = none := by
  unfold okCondEntry at hok
  cases hth : c.threads[e.1]? with
  | none => rw [hth] at hok; exact Bool.noConfusion hok
  | some thw =>
      rw [hth] at hok
      obtain ⟨ph, tk, rs⟩ := thw
      cases ph with
      | blockedReacq p =>
          simp only [Bool.and_eq_true] at hok
          exact ⟨_, p, rfl, rfl, Option.isNone_iff_eq_none.mp hok.2⟩
      | run p => simp at hok
      | blockedEnter p => simp at hok
      | waitingCV cv ti sv p => simp at hok
      | terminated => simp at hok

theorem okCvEntry_elim {c : Config} {k tid : Nat}
    (hok : okCvEntry c k tid = true) :
    ∃ thw ti sv pw, c.threads[tid]? = some thw ∧
      thw.phase = Phase.waitingCV k ti sv pw ∧ thw.tok = none := by
  unfold okCvEntry at hok
  cases hth : c.threads[tid]? with
  | none => rw [hth] at hok; exact Bool.noConfusion hok
  | some thw =>
      rw [hth] at hok
      obtain ⟨ph, tk, rs⟩ := thw
      cases ph with
      | waitingCV cv ti sv p =>
          simp only [Bool.and_eq_true, decide_eq_true_eq] at hok
          exact ⟨_, ti, sv, p, rfl, by rw [hok.1], Option.isNone_iff_eq_none.mp hok.2⟩
      | run p => simp at hok
      | blockedEnter p => simp at hok
      | blockedReacq p => simp at hok
      | terminated => simp at hok

theorem getElem?_set2_back {l : List Thread} {i w j : Nat} {thi thw thj : Thread}
    (hj : ((l.set i thi).set w thw)[j]? = some thj) (hwi : w ≠ i) :
    (j = w ∧ thj = thw) ∨ (j = i ∧ thj = thi) ∨
      (j ≠ w ∧ j ≠ i ∧ l[j]? = some thj) := by
  rcases getElem?_set_back hj with ⟨hjw, hth, _⟩ | ⟨hjw, hj'⟩
  · exact Or.inl ⟨hjw, hth⟩
  · rcases getElem?_set_back hj' with ⟨hji, hth, _⟩ | ⟨hji, hj''⟩
    · exact Or.inr (Or.inl ⟨hji, hth⟩)
    · exact Or.inr (Or.inr ⟨hjw, hji, hj''⟩)

theorem configInv_releaseWakeup {c : Config} (h : ConfigInv c) {i : Nat}
    {th : Thread} (hi : c.threads[i]? = some th) {t : LockOwner}
    (htk : th.tok = some t) (hnq : notQueued c i)
    (th' : Thread) (htk' : th'.tok = none) :
    ConfigInv (releaseWakeup c i th') := by
  have hilt : i < c.threads.length := lt_length_of_getElem? hi
  have hhold : ∀ (j : Nat) (thj : Thread), c.threads[j]? = some thj →
      thj.tok.isSome = true → j = i :=
    fun j thj hj hsj =>
      h.holderUnique j i thj th hj hi hsj (by rw [htk]; rfl)
  cases hcq : c.mon.condQueue with
  | cons e rest =>
      obtain ⟨w, sv⟩ := e
      have hwmem : (w, sv) ∈ c.mon.condQueue := by
        rw [hcq]; exact List.mem_cons_self _ _
      obtain ⟨thw, pw, hw, hphw, htkw⟩ := okCondEntry_elim (h.condQOk _ hwmem)
      have hwi : w ≠ i := hnq.2.1 (w, sv) hwmem
      have hw' : (c.threads.set i th')[w]? = some thw := by
        rw [List.getElem?_set_ne (fun hc => hwi hc.symm)]
        exact hw
      rw [releaseWakeup_eq_cond hcq, applyGrant_eq_reacq hw' hphw]
      have hget : ∀ (j : Nat) (thj : Thread),
          (((c.threads.set i th').set w
            { thw with phase := Phase.run pw, tok := some sv }))[j]? = some thj →
          (j = w ∧ thj = { thw with phase := Phase.run pw, tok := some sv }) ∨
            (j = i ∧ thj = th') ∨ (j ≠ w ∧ j ≠ i ∧ c.threads[j]? = some thj) :=
        fun j thj hj => getElem?_set2_back hj hwi
      have hset_ne2 : ∀ j, j ≠ w → j ≠ i →
          (((c.threads.set i th').set w
            { thw with phase := Phase.run pw, tok := some sv }))[j]? =
            c.threads[j]? := by
        intro j hjw hji
        rw [List.getElem?_set_ne (fun hc => hjw hc.symm),
            List.getElem?_set_ne (fun hc => hji hc.symm)]
      constructor
      · rfl
      · intro j thj t' hj htk2
        rcases hget j thj hj with ⟨hjw, hth⟩ | ⟨hji, hth⟩ | ⟨hjw, hji, hj'⟩
        · subst hth
          simpa using htk2
        · subst hth
          rw [htk'] at htk2
          exact Option.noConfusion htk2
        · have hji2 := hhold j thj hj' (by rw [htk2]; rfl)
          exact absurd hji2 hji
      · intro j l thj thl hj hl hsj hsl
        have hjw : j = w := by
          rcases hget j thj hj with ⟨hjw, _⟩ | ⟨hji, hth⟩ | ⟨hjw, hji, hj'⟩
          · exact hjw
          · subst hth; rw [htk'] at hsj; exact absurd hsj (by simp)
          · exact absurd (hhold j thj hj' hsj) hji
        have hlw : l = w := by
          rcases hget l thl hl with ⟨hlw, _⟩ | ⟨hli, hth⟩ | ⟨hlw, hli, hl'⟩
          · exact hlw
          · subst hth; rw [htk'] at hsl; exact absurd hsl (by simp)
          · exact absurd (hhold l thl hl' hsl) hli
        rw [hjw, hlw]
      · intro tid hmem
        have htid : tid ≠ i := fun hc => hnq.1 (hc ▸ hmem)
        have htw : tid ≠ w := by
          intro hc
          obtain ⟨thl, pl, hthl, hphl, _⟩ := okLockEntry_elim (h.lockQOk tid hmem)
          rw [hc, hw] at hthl
          have := Option.some_injective _ hthl
          rw [this, hphl] at hphw
          exact Phase.noConfusion hphw
        rw [show okLockEntry _ tid = okLockEntry c tid from
              okLockEntry_congr tid (hset_ne2 tid htw htid)]
        exact h.lockQOk tid hmem
      · intro e hmem
        have hmem0 : e ∈ c.mon.condQueue := by
          rw [hcq]; exact List.mem_cons_of_mem _ hmem
        have he : e.1 ≠ i := hnq.2.1 e hmem0
        have hew : e.1 ≠ w := by
          intro hc
          have hnd := h.condQNodup
          rw [hcq] at hnd
          simp only [List.map_cons, List.nodup_cons] at hnd
          exact hnd.1 (hc ▸ List.mem_map_of_mem Prod.fst hmem)
        rw [show okCondEntry _ e = okCondEntry c e from
              okCondEntry_congr e (hset_ne2 e.1 hew he)]
        exact h.condQOk e hmem0
      · intro k q hk tid hmem
        have htid : tid ≠ i := fun hc => hnq.2.2 k q hk (hc ▸ hmem)
        have htw : tid ≠ w := by
          intro hc
          obtain ⟨thl, ti, sv', pl, hthl, hphl, _⟩ :=
            okCvEntry_elim (h.cvOk k q hk tid hmem)
          rw [hc, hw] at hthl
          have := Option.some_injective _ hthl
          rw [this, hphl] at hphw
          exact Phase.noConfusion hphw
        rw [show okCvEntry _ k tid = okCvEntry c k tid from
              okCvEntry_congr k tid (hset_ne2 tid htw htid)]
        exact h.cvOk k q hk tid hmem
      · exact h.lockQNodup
      · have hnd := h.condQNodup
        rw [hcq] at hnd
        simp only [List.map_cons, List.nodup_cons] at hnd
        exact hnd.2
      · exact h.cvNodup
  | nil =>
      cases hlq : c.mon.lockQueue with
      | cons w rest =>
          have hwmem : w ∈ c.mon.lockQueue := by
            rw [hlq]; exact List.mem_cons_self _ _
          obtain ⟨thw, pw, hw, hphw, htkw⟩ := okLockEntry_elim (h.lockQOk _ hwmem)
          have hwi : w ≠ i := fun hc => hnq.1 (hc ▸ hwmem)
          have hw' : (c.threads.set i th')[w]? = some thw := by
            rw [List.getElem?_set_ne (fun hc => hwi hc.symm)]
            exact hw
          rw [releaseWakeup_eq_lock hcq hlq, applyGrant_eq_enter hw' hphw]
          have hget : ∀ (j : Nat) (thj : Thread),
              (((c.threads.set i th').set w
                { thw with
                    phase := Phase.run pw,
                    tok := some { id := c.mon.nextId, count := 1 } }))[j]? =
                some thj →
              (j = w ∧ thj =
                { thw with
                    phase := Phase.run pw,
                    tok := some { id := c.mon.nextId, count := 1 } }) ∨
                (j = i ∧ thj = th') ∨ (j ≠ w ∧ j ≠ i ∧ c.threads[j]? = some thj) :=
            fun j thj hj => getElem?_set2_back hj hwi
          have hset_ne2 : ∀ j, j ≠ w → j ≠ i →
              (((c.threads.set i th').set w
                { thw with
                    phase := Phase.run pw,
                    tok := some { id := c.mon.nextId, count := 1 } }))[j]? =
                c.threads[j]? := by
            intro j hjw hji
            rw [List.getElem?_set_ne (fun hc => hjw hc.symm),
                List.getElem?_set_ne (fun hc => hji hc.symm)]
          constructor
          · rfl
          · intro j thj t' hj htk2
            rcases hget j thj hj with ⟨hjw, hth⟩ | ⟨hji, hth⟩ | ⟨hjw, hji, hj'⟩
            · subst hth
              simpa using htk2
            · subst hth
              rw [htk'] at htk2
              exact Option.noConfusion htk2
            · have hji2 := hhold j thj hj' (by rw [htk2]; rfl)
              exact absurd hji2 hji
          · intro j l thj thl hj hl hsj hsl
            have hjw : j = w := by
              rcases hget j thj hj with ⟨hjw, _⟩ | ⟨hji, hth⟩ | ⟨hjw, hji, hj'⟩
              · exact hjw
              · subst hth; rw [htk'] at hsj; exact absurd hsj (by simp)
              · exact absurd (hhold j thj hj' hsj) hji
            have hlw : l = w := by
              rcases hget l thl hl with ⟨hlw, _⟩ | ⟨hli, hth⟩ | ⟨hlw, hli, hl'⟩
              · exact hlw
              · subst hth; rw [htk'] at hsl; exact absurd hsl (by simp)
              · exact absurd (hhold l thl hl' hsl) hli
            rw [hjw, hlw]
          · intro tid hmem
            have hmem0 : tid ∈ c.mon.lockQueue := by
              rw [hlq]; exact List.mem_cons_of_mem _ hmem
            have htid : tid ≠ i := fun hc => hnq.1 (hc ▸ hmem0)
            have htw : tid ≠ w := by
              intro hc
              have hnd := h.lockQNodup
              rw [hlq] at hnd
              simp only [List.nodup_cons] at hnd
              exact hnd.1 (hc ▸ hmem)
            rw [show okLockEntry _ tid = okLockEntry c tid from
                  okLockEntry_congr tid (hset_ne2 tid htw htid)]
            exact h.lockQOk tid hmem0
          · intro e hmem
            rw [hcq] at hmem
            exact absurd hmem (List.not_mem_nil e)
          · intro k q hk tid hmem
            have htid : tid ≠ i := fun hc => hnq.2.2 k q hk (hc ▸ hmem)
            have htw : tid ≠ w := by
              intro hc
              obtain ⟨thl, ti, sv', pl, hthl, hphl, _⟩ :=
                okCvEntry_elim (h.cvOk k q hk tid hmem)
              rw [hc, hw] at hthl
              have := Option.some_injective _ hthl
              rw [this, hphl] at hphw
              exact Phase.noConfusion hphw
            rw [show okCvEntry _ k tid = okCvEntry c k tid from
                  okCvEntry_congr k tid (hset_ne2 tid htw htid)]
            exact h.cvOk k q hk tid hmem
          · have hnd := h.lockQNodup
            rw [hlq] at hnd
            simp only [List.nodup_cons] at hnd
            exact hnd.2
          · exact h.condQNodup
          · exact h.cvNodup
      | nil =>
          rw [releaseWakeup_eq_none hcq hlq]
          have hset_ne : ∀ j, j ≠ i →
              (c.threads.set i th')[j]? = c.threads[j]? :=
            fun j hj => List.getElem?_set_ne (fun hc => hj hc.symm)
          constructor
          · rfl
          · intro j thj t' hj htk2
            rcases getElem?_set_back hj with ⟨hji, hth, _⟩ | ⟨hji, hj'⟩
            · subst hth
              rw [htk'] at htk2
              exact Option.noConfusion htk2
            · have hji2 := hhold j thj hj' (by rw [htk2]; rfl)
              subst hji2
              rw [hi] at hj'
              have := Option.some_injective _ hj'
              rw [← this, htk] at htk2
              have hown2 := h.holderOwner j th t hi htk
              -- the section was occupied by i; after release nobody holds
              -- but j = i was overwritten by th', contradiction with hji
              exact absurd rfl hji
          · intro j l thj thl hj hl hsj hsl
            have hcontra : ∀ (m : Nat) (thm : Thread),
                (c.threads.set i th')[m]? = some thm →
                thm.tok.isSome = true → False := by
              intro m thm hm hsm
              rcases getElem?_set_back hm with ⟨hmi, hth, _⟩ | ⟨hmi, hm'⟩
              · subst hth
                rw [htk'] at hsm
                exact Bool.noConfusion hsm
              · exact hmi (hhold m thm hm' hsm)
            exact absurd hsj (fun hc => hcontra j thj hj hc)
          · intro tid hmem
            rw [hlq] at hmem
            exact absurd hmem (List.not_mem_nil tid)
          · intro e hmem
            rw [hcq] at hmem
            exact absurd hmem (List.not_mem_nil e)
          · intro k q hk tid hmem
            have htid : tid ≠ i := fun hc => hnq.2.2 k q hk (hc ▸ hmem)
            rw [show okCvEntry _ k tid = okCvEntry c k tid from
                  okCvEntry_congr k tid (hset_ne tid htid)]
            exact h.cvOk k q hk tid hmem
          · exact h.lockQNodup
          · exact h.condQNodup
          · exact h.cvNodup

theorem resolveWaiter_eq_locked {c : Config} {w : Nat} {thw : Thread}
    {cv : Nat} {ti : Bool} {sv : LockOwner} {pw : Prog} (r : Bool)
    (hw : c.threads[w]? = some thw)
    (hphw : thw.phase = Phase.waitingCV cv ti sv pw)
    (hl : c.mon.locked = true) :
    resolveWaiter c w r =
      { c with
          threads := c.threads.set w
            { thw with phase := Phase.blockedReacq pw, res := some r },
          mon := { c.mon with
                     condQueue := c.mon.condQueue ++ [(w, sv)] } } := by
  simp only [resolveWaiter, MonitorState.enterForCond, hw, hphw, hl, if_true]

theorem resolveWaiter_eq_unlocked {c : Config} {w : Nat} {thw : Thread}
    {cv : Nat} {ti : Bool} {sv : LockOwner} {pw : Prog} (r : Bool)
    (hw : c.threads[w]? = some thw)
    (hphw : thw.phase = Phase.waitingCV cv ti sv pw)
    (hl : c.mon.locked = false) :
    resolveWaiter c w r =
      { c with
          threads := c.threads.set w
            { thw with phase := Phase.run pw, tok := some sv, res := some r },
          mon := { c.mon with locked := true, owner := some sv } } := by
  simp only [resolveWaiter, MonitorState.enterForCond, hw, hphw, hl,
    Bool.false_eq_true, if_false]

theorem configInv_resolveWaiter {c : Config} (h : ConfigInv c)
    {w : Nat} {thw : Thread} {cv : Nat} {ti : Bool} {sv : LockOwner} {pw : Prog}
    (hw : c.threads[w]? = some thw)
    (hphw : thw.phase = Phase.waitingCV cv ti sv pw)
    (htkw : thw.tok = none)
    (hwq : ∀ (k : Nat) (q : List Nat), c.cvs[k]? = some q → w ∉ q)
    (r : Bool) :
    ConfigInv (resolveWaiter c w r) := by
  have hwlt : w < c.threads.length := lt_length_of_getElem? hw
  have hnotlq : w ∉ c.mon.lockQueue := by
    intro hmem
    obtain ⟨thl, pl, hthl, hphl, _⟩ := okLockEntry_elim (h.lockQOk w hmem)
    rw [hw] at hthl
    have := Option.some_injective _ hthl
    rw [this, hphl] at hphw
    exact Phase.noConfusion hphw
  have hnotcq : ∀ e ∈ c.mon.condQueue, e.1 ≠ w := by
    intro e hmem hc
    obtain ⟨thl, pl, hthl, hphl, _⟩ := okCondEntry_elim (h.condQOk e hmem)
    rw [hc, hw] at hthl
    have := Option.some_injective _ hthl
    rw [this, hphl] at hphw
    exact Phase.noConfusion hphw
  cases hl : c.mon.locked with
  | true =>
      rw [resolveWaiter_eq_locked r hw hphw hl]
      have hset_ne : ∀ j, j ≠ w →
          (c.threads.set w
            { thw with phase := Phase.blockedReacq pw, res := some r })[j]? =
            c.threads[j]? :=
        fun j hj => List.getElem?_set_ne (fun hc => hj hc.symm)
      have hset_w : (c.threads.set w
          { thw with phase := Phase.blockedReacq pw, res := some r })[w]? =
          some { thw with phase := Phase.blockedReacq pw, res := some r } :=
        List.getElem?_set_eq_of_lt _ hwlt
      constructor
      · exact h.lockedIff
      · intro j thj t' hj htk2
        rcases getElem?_set_back hj with ⟨hjw, hth, _⟩ | ⟨hjw, hj'⟩
        · subst hth
          simp only at htk2
          rw [htkw] at htk2
          exact Option.noConfusion htk2
        · exact h.holderOwner j thj t' hj' htk2
      · intro j l thj thl hj hl' hsj hsl
        rcases getElem?_set_back hj with ⟨hjw, hth, _⟩ | ⟨hjw, hj'⟩ <;>
          rcases getElem?_set_back hl' with ⟨hlw, hthl, _⟩ | ⟨hlw, hl''⟩
        · rw [hjw, hlw]
        · subst hth
          simp only [htkw] at hsj
          exact absurd hsj (by simp)
        · subst hthl
          simp only [htkw] at hsl
          exact absurd hsl (by simp)
        · exact h.holderUnique j l thj thl hj' hl'' hsj hsl
      · intro tid hmem
        have htw : tid ≠ w := fun hc => hnotlq (hc ▸ hmem)
        rw [show okLockEntry _ tid = okLockEntry c tid from
              okLockEntry_congr tid (hset_ne tid htw)]
        exact h.lockQOk tid hmem
      · intro e hmem
        rcases List.mem_append.mp hmem with hold | hnew
        · have he : e.1 ≠ w := hnotcq e hold
          rw [show okCondEntry _ e = okCondEntry c e from
                okCondEntry_congr e (hset_ne e.1 he)]
          exact h.condQOk e hold
        · have he : e = (w, sv) := by simpa using hnew
          subst he
          unfold okCondEntry
          rw [hset_w]
          simp [htkw]
      · intro k q hk tid hmem
        have htw : tid ≠ w := fun hc => hwq k q hk (hc ▸ hmem)
        rw [show okCvEntry _ k tid = okCvEntry c k tid from
              okCvEntry_congr k tid (hset_ne tid htw)]
        exact h.cvOk k q hk tid hmem
      · exact h.lockQNodup
      · have : w ∉ c.mon.condQueue.map Prod.fst := by
          intro hmem
          obtain ⟨e, hemem, hefst⟩ := List.mem_map.mp hmem
          exact hnotcq e hemem hefst
        simp [List.nodup_append, h.condQNodup, this]
      · exact h.cvNodup
  | false =>
      rw [resolveWaiter_eq_unlocked r hw hphw hl]
      have hset_ne : ∀ j, j ≠ w →
          (c.threads.set w
            { thw with phase := Phase.run pw, tok := some sv,
                       res := some r })[j]? = c.threads[j]? :=
        fun j hj => List.getElem?_set_ne (fun hc => hj hc.symm)
      constructor
      · rfl
      · intro j thj t' hj htk2
        rcases getElem?_set_back hj with ⟨hjw, hth, _⟩ | ⟨hjw, hj'⟩
        · subst hth
          simpa using htk2
        · have := no_holder_of_unlocked h hl j thj hj'
          rw [this] at htk2
          exact Option.noConfusion htk2
      · intro j l thj thl hj hl' hsj hsl
        rcases getElem?_set_back hj with ⟨hjw, hth, _⟩ | ⟨hjw, hj'⟩ <;>
          rcases getElem?_set_back hl' with ⟨hlw, hthl, _⟩ | ⟨hlw, hl''⟩
        · rw [hjw, hlw]
        · have := no_holder_of_unlocked h hl l thl hl''
          rw [this] at hsl
          exact absurd hsl (by simp)
        · have := no_holder_of_unlocked h hl j thj hj'
          rw [this] at hsj
          exact absurd hsj (by simp)
        · have := no_holder_of_unlocked h hl j thj hj'
          rw [this] at hsj
          exact absurd hsj (by simp)
      · intro tid hmem
        have htw : tid ≠ w := fun hc => hnotlq (hc ▸ hmem)
        rw [show okLockEntry _ tid = okLockEntry c tid from
              okLockEntry_congr tid (hset_ne tid htw)]
        exact h.lockQOk tid hmem
      · intro e hmem
        have he : e.1 ≠ w := hnotcq e hmem
        rw [show okCondEntry _ e = okCondEntry c e from
              okCondEntry_congr e (hset_ne e.1 he)]
        exact h.condQOk e hmem
      · intro k q hk tid hmem
        have htw : tid ≠ w := fun hc => hwq k q hk (hc ▸ hmem)
        rw [show okCvEntry _ k tid = okCvEntry c k tid from
              okCvEntry_congr k tid (hset_ne tid htw)]
        exact h.cvOk k q hk tid hmem
      · exact h.lockQNodup
      · exact h.condQNodup
      · exact h.cvNodup

theorem configInv_cvShrink {c : Config} (h : ConfigInv c) {cv : Nat}
    {q : List Nat} (hq : c.cvs[cv]? = some q) (q' : List Nat)
    (hsub : ∀ x ∈ q', x ∈ q) (hnd : q'.Nodup) :
    ConfigInv { c with cvs := c.cvs.set cv q' } := by
  have hcvlt : cv < c.cvs.length := lt_length_of_getElem? hq
  constructor
  · exact h.lockedIff
  · exact h.holderOwner
  · exact h.holderUnique
  · exact h.lockQOk
  · exact h.condQOk
  · intro k qq hk tid hmem
    by_cases hkcv : k = cv
    · subst hkcv
      rw [List.getElem?_set_eq_of_lt q' hcvlt] at hk
      have := Option.some_injective _ hk
      subst this
      exact h.cvOk k q hq tid (hsub tid hmem)
    · rw [List.getElem?_set_ne (fun hc => hkcv hc.symm)] at hk
      exact h.cvOk k qq hk tid hmem
  · exact h.lockQNodup
  · exact h.condQNodup
  · intro k qq hk
    by_cases hkcv : k = cv
    · subst hkcv
      rw [List.getElem?_set_eq_of_lt q' hcvlt] at hk
      have := Option.some_injective _ hk
      subst this
      exact hnd
    · rw [List.getElem?_set_ne (fun hc => hkcv hc.symm)] at hk
      exact h.cvNodup k qq hk

theorem configInv_resolveAll {c : Config} (h : ConfigInv c) {ws : List Nat}
    (hl : c.mon.locked = true)
    (hws : ∀ w ∈ ws, ∃ thw cv ti sv pw, c.threads[w]? = some thw ∧
      thw.phase = Phase.waitingCV cv ti sv pw ∧ thw.tok = none)
    (hwq : ∀ w ∈ ws, ∀ (k : Nat) (q : List Nat), c.cvs[k]? = some q → w ∉ q)
    (hnd : ws.Nodup) :
    ConfigInv (resolveAllSignaled c ws) := by
  induction ws generalizing c with
  | nil => exact h
  | cons w ws ih =>
      obtain ⟨thw, cv, ti, sv, pw, hw, hphw, htkw⟩ :=
        hws w (List.mem_cons_self _ _)
      have hwqw := hwq w (List.mem_cons_self _ _)
      have h1 : ConfigInv (resolveWaiter c w true) :=
        configInv_resolveWaiter h hw hphw htkw hwqw true
      have hceq := resolveWaiter_eq_locked true hw hphw hl
      have hndtail : ws.Nodup := (List.nodup_cons.mp hnd).2
      have hwne : ∀ w' ∈ ws, w' ≠ w := by
        intro w' hmem hc
        exact (List.nodup_cons.mp hnd).1 (hc ▸ hmem)
      show ConfigInv (resolveAllSignaled (resolveWaiter c w true) ws)
      apply ih h1
      · rw [hceq]
        exact hl
      · intro w' hmem
        obtain ⟨thw', cv', ti', sv', pw', hw', hphw', htkw'⟩ :=
          hws w' (List.mem_cons_of_mem _ hmem)
        refine ⟨thw', cv', ti', sv', pw', ?_, hphw', htkw'⟩
        rw [hceq]
        show (c.threads.set w _)[w']? = some thw'
        rw [List.getElem?_set_ne (fun hc => (hwne w' hmem) hc.symm)]
        exact hw'
      · intro w' hmem k q hk
        rw [hceq] at hk
        exact hwq w' (List.mem_cons_of_mem _ hmem) k q hk
      · exact hndtail

theorem waiting_not_elsewhere {c : Config} (h : ConfigInv c) {w : Nat}
    {th : Thread} {cv : Nat} {ti : Bool} {sv : LockOwner} {pw : Prog}
    (hw : c.threads[w]? = some th)
    (hph : th.phase = Phase.waitingCV cv ti sv pw)
    {k : Nat} {q : List Nat} (hk : c.cvs[k]? = some q) (hkcv : k ≠ cv) :
    w ∉ q := by
  intro hmem
  obtain ⟨th', ti', sv', p', hth', hph', _⟩ :=
    okCvEntry_elim (h.cvOk k q hk w hmem)
  rw [hw] at hth'
  have := Option.some_injective _ hth'
  rw [this, hph'] at hph
  obtain ⟨hk', _⟩ := Phase.waitingCV.inj hph
  exact hkcv hk'

theorem releaseWakeup_getElem_i {c : Config} (h : ConfigInv c) {i : Nat}
    {th : Thread} (hi : c.threads[i]? = some th) (hnq : notQueued c i)
    (th' : Thread) :
    (releaseWakeup c i th').threads[i]? = some th' := by
  have hilt : i < c.threads.length := lt_length_of_getElem? hi
  have hseti : (c.threads.set i th')[i]? = some th' :=
    List.getElem?_set_eq_of_lt th' hilt
  cases hcq : c.mon.condQueue with
  | cons e rest =>
      obtain ⟨w, sv⟩ := e
      have hwmem : (w, sv) ∈ c.mon.condQueue := by
        rw [hcq]; exact List.mem_cons_self _ _
      obtain ⟨thw, pw, hw, hphw, _⟩ := okCondEntry_elim (h.condQOk _ hwmem)
      have hwi : w ≠ i := hnq.2.1 (w, sv) hwmem
      have hw' : (c.threads.set i th')[w]? = some thw := by
        rw [List.getElem?_set_ne (fun hc => hwi hc.symm)]
        exact hw
      rw [releaseWakeup_eq_cond hcq, applyGrant_eq_reacq hw' hphw]
      show (((c.threads.set i th').set w _))[i]? = some th'
      rw [List.getElem?_set_ne hwi]
      exact hseti
  | nil =>
      cases hlq : c.mon.lockQueue with
      | cons w rest =>
          have hwmem : w ∈ c.mon.lockQueue := by
            rw [hlq]; exact List.mem_cons_self _ _
          obtain ⟨thw, pw, hw, hphw, _⟩ := okLockEntry_elim (h.lockQOk _ hwmem)
          have hwi : w ≠ i := fun hc => hnq.1 (hc ▸ hwmem)
          have hw' : (c.threads.set i th')[w]? = some thw := by
            rw [List.getElem?_set_ne (fun hc => hwi hc.symm)]
            exact hw
          rw [releaseWakeup_eq_lock hcq hlq, applyGrant_eq_enter hw' hphw]
          show (((c.threads.set i th').set w _))[i]? = some th'
          rw [List.getElem?_set_ne hwi]
          exact hseti
      | nil =>
          rw [releaseWakeup_eq_none hcq hlq]
          exact hseti

theorem configInv_cvAppendWaiter {c : Config} (h : ConfigInv c) {cv : Nat}
    {q : List Nat} (hq : c.cvs[cv]? = some q) {i : Nat} {thi : Thread}
    (hi : c.threads[i]? = some thi) {ti : Bool} {sv : LockOwner} {pi : Prog}
    (hph : thi.phase = Phase.waitingCV cv ti sv pi)
    (htk : thi.tok = none)
    (hninq : ∀ (k : Nat) (qq : List Nat), c.cvs[k]? = some qq → i ∉ qq) :
    ConfigInv { c with cvs := c.cvs.set cv (q ++ [i]) } := by
  have hcvlt : cv < c.cvs.length := lt_length_of_getElem? hq
  constructor
  · exact h.lockedIff
  · exact h.holderOwner
  · exact h.holderUnique
  · exact h.lockQOk
  · exact h.condQOk
  · intro k qq hk tid hmem
    by_cases hkcv : k = cv
    · subst hkcv
      rw [List.getElem?_set_eq_of_lt _ hcvlt] at hk
      have := Option.some_injective _ hk
      subst this
      rcases List.mem_append.mp hmem with hold | hnew
      · exact h.cvOk k q hq tid hold
      · have : tid = i := by simpa using hnew
        subst this
        simp only [okCvEntry, hi, hph, htk]
        simp
    · rw [List.getElem?_set_ne (fun hc => hkcv hc.symm)] at hk
      exact h.cvOk k qq hk tid hmem
  · exact h.lockQNodup
  · exact h.condQNodup
  · intro k qq hk
    by_cases hkcv : k = cv
    · subst hkcv
      rw [List.getElem?_set_eq_of_lt _ hcvlt] at hk
      have := Option.some_injective _ hk
      subst this
      simp [List.nodup_append, h.cvNodup k q hq, hninq k q hq]
    · rw [List.getElem?_set_ne (fun hc => hkcv hc.symm)] at hk
      exact h.cvNodup k qq hk


theorem configInv_step {c c' : Config} (h : ConfigInv c) (hs : Step c c') :
    ConfigInv c' := by
  obtain ⟨i, hrange, hstep⟩ := List.mem_filterMap.mp hs
  cases hth : c.threads[i]? with
  | none =>
      unfold stepThread at hstep
      rw [hth] at hstep
      exact Option.noConfusion hstep
  | some th =>
      unfold stepThread at hstep
      rw [hth] at hstep
      obtain ⟨ph, tk, rs⟩ := th
      cases ph with
      | run p =>
          have hnq : notQueued c i :=
            notQueued_of_phase h hth (by simp) (by simp) (by simp)
          cases p with
          | done =>
              cases hstep
              exact configInv_local h _ c.trace hth hnq rfl
          | push m k =>
              cases hstep
              exact configInv_local h _ _ hth hnq rfl
          | pushIfRes a b k =>
              cases hstep
              exact configInv_local h _ _ hth hnq rfl
          | pushIfOwned a b k =>
              cases hstep
              exact configInv_local h _ _ hth hnq rfl
          | pushIfTok t a b k =>
              cases hstep
              exact configInv_local h _ _ hth hnq rfl
          | enter k =>
              cases tk with
              | some t => exact Option.noConfusion hstep
              | none =>
                  simp only [MonitorState.enterRequest] at hstep
                  cases hlk : c.mon.locked with
                  | true =>
                      rw [if_pos hlk] at hstep
                      cases hstep
                      exact configInv_enterQueue h hth hnq rfl k
                  | false =>
                      rw [if_neg (by rw [hlk]; simp)] at hstep
                      cases hstep
                      exact configInv_enterNow h hth hnq hlk k
          | exit k =>
              cases tk with
              | none => exact Option.noConfusion hstep
              | some t =>
                  dsimp only at hstep
                  by_cases hown : c.mon.owner = some t
                  · rw [if_pos hown] at hstep
                    cases hstep
                    exact configInv_releaseWakeup h hth rfl hnq _ rfl
                  · rw [if_neg hown] at hstep
                    exact Option.noConfusion hstep
          | wait cv timed k =>
              cases tk with
              | none => exact Option.noConfusion hstep
              | some t =>
                  dsimp only at hstep
                  by_cases hown : c.mon.owner = some t
                  · rw [if_pos hown] at hstep
                    cases hq : c.cvs[cv]? with
                    | none =>
                        rw [hq] at hstep
                        exact Option.noConfusion hstep
                    | some q =>
                        rw [hq] at hstep
                        cases hstep
                        have h1 : ConfigInv (releaseWakeup c i
                            { phase := Phase.waitingCV cv timed t k,
                              tok := none, res := none }) :=
                          configInv_releaseWakeup h hth rfl hnq _ rfl
                        have hi1 : (releaseWakeup c i
                            { phase := Phase.waitingCV cv timed t k,
                              tok := none, res := none }).threads[i]? =
                            some { phase := Phase.waitingCV cv timed t k,
                                   tok := none, res := none } :=
                          releaseWakeup_getElem_i h hth hnq _
                        exact configInv_cvAppendWaiter h1 hq hi1 rfl rfl
                          (fun kk qq hkk => hnq.2.2 kk qq hkk)
                  · rw [if_neg hown] at hstep
                    exact Option.noConfusion hstep
          | signal cv k =>
              dsimp only at hstep
              cases hlk : c.mon.locked with
              | false =>
                  rw [if_neg (by rw [hlk]; simp)] at hstep
                  exact Option.noConfusion hstep
              | true =>
                  rw [if_pos hlk] at hstep
                  cases hq : c.cvs[cv]? with
                  | none =>
                      rw [hq] at hstep
                      exact Option.noConfusion hstep
                  | some qq =>
                      rw [hq] at hstep
                      cases qq with
                      | nil =>
                          cases hstep
                          exact configInv_local h _ c.trace hth hnq rfl
                      | cons w rest =>
                          cases hstep
                          obtain ⟨thw, tiw, svw, pw, hw, hphw, htkww⟩ :=
                            okCvEntry_elim
                              (h.cvOk cv (w :: rest) hq w (List.mem_cons_self _ _))
                          have hwi : w ≠ i := by
                            intro hc
                            exact hnq.2.2 cv (w :: rest) hq
                              (hc ▸ List.mem_cons_self _ _)
                          have hndq := h.cvNodup cv (w :: rest) hq
                          have hcvlt : cv < c.cvs.length := lt_length_of_getElem? hq
                          have h0 : ConfigInv { c with cvs := c.cvs.set cv rest } :=
                            configInv_cvShrink h hq rest
                              (fun x hx => List.mem_cons_of_mem _ hx)
                              (List.nodup_cons.mp hndq).2
                          have hnq0 : notQueued { c with cvs := c.cvs.set cv rest } i := by
                            refine ⟨hnq.1, hnq.2.1, ?_⟩
                            intro kk q' hk'
                            by_cases hkcv : kk = cv
                            · subst hkcv
                              have hk2 : (c.cvs.set kk rest)[kk]? = some q' := hk'
                              rw [List.getElem?_set_eq_of_lt _ hcvlt] at hk2
                              have := Option.some_injective _ hk2
                              subst this
                              intro hmem
                              exact hnq.2.2 kk _ hq (List.mem_cons_of_mem _ hmem)
                            · have hk2 : (c.cvs.set cv rest)[kk]? = some q' := hk'
                              rw [List.getElem?_set_ne
                                (fun hc => hkcv hc.symm)] at hk2
                              exact hnq.2.2 kk q' hk2
                          have h1 := configInv_local h0
                            { phase := Phase.run k, tok := tk, res := rs }
                            c.trace hth hnq0 rfl
                          have hw1 : (c.threads.set i
                              { phase := Phase.run k, tok := tk, res := rs })[w]? =
                              some thw := by
                            rw [List.getElem?_set_ne (fun hc => hwi hc.symm)]
                            exact hw
                          have hwq1 : ∀ (kk : Nat) (q' : List Nat),
                              (c.cvs.set cv rest)[kk]? = some q' → w ∉ q' := by
                            intro kk q' hk'
                            by_cases hkcv : kk = cv
                            · subst hkcv
                              rw [List.getElem?_set_eq_of_lt _ hcvlt] at hk'
                              have := Option.some_injective _ hk'
                              subst this
                              exact (List.nodup_cons.mp hndq).1
                            · rw [List.getElem?_set_ne
                                (fun hc => hkcv hc.symm)] at hk'
                              exact waiting_not_elsewhere h hw hphw hk' hkcv
                          exact configInv_resolveWaiter h1 hw1 hphw htkww hwq1 true
          | broadcast cv k =>
              dsimp only at hstep
              cases hlk : c.mon.locked with
              | false =>
                  rw [if_neg (by rw [hlk]; simp)] at hstep
                  exact Option.noConfusion hstep
              | true =>
                  rw [if_pos hlk] at hstep
                  cases hq : c.cvs[cv]? with
                  | none =>
                      rw [hq] at hstep
                      exact Option.noConfusion hstep
                  | some q =>
                      rw [hq] at hstep
                      cases hstep
                      have hcvlt : cv < c.cvs.length := lt_length_of_getElem? hq
                      have h0 : ConfigInv { c with cvs := c.cvs.set cv [] } :=
                        configInv_cvShrink h hq []
                          (fun x hx => absurd hx (List.not_mem_nil x))
                          List.nodup_nil
                      have hnq0 : notQueued { c with cvs := c.cvs.set cv [] } i := by
                        refine ⟨hnq.1, hnq.2.1, ?_⟩
                        intro kk q' hk'
                        by_cases hkcv : kk = cv
                        · subst hkcv
                          have hk2 : (c.cvs.set kk [])[kk]? = some q' := hk'
                          rw [List.getElem?_set_eq_of_lt _ hcvlt] at hk2
                          have := Option.some_injective _ hk2
                          subst this
                          exact List.not_mem_nil i
                        · have hk2 : (c.cvs.set cv [])[kk]? = some q' := hk'
                          rw [List.getElem?_set_ne
                            (fun hc => hkcv hc.symm)] at hk2
                          exact hnq.2.2 kk q' hk2
                      have h1 := configInv_local h0
                        { phase := Phase.run k, tok := tk, res := rs }
                        c.trace hth hnq0 rfl
                      apply configInv_resolveAll h1
                      · exact hlk
                      · intro w hmem
                        obtain ⟨thw, tiw, svw, pw, hw, hphw, htkww⟩ :=
                          okCvEntry_elim (h.cvOk cv q hq w hmem)
                        have hwi : w ≠ i := by
                          intro hc
                          exact hnq.2.2 cv q hq (hc ▸ hmem)
                        refine ⟨thw, cv, tiw, svw, pw, ?_, hphw, htkww⟩
                        show (c.threads.set i
                          { phase := Phase.run k, tok := tk, res := rs })[w]? =
                          some thw
                        rw [List.getElem?_set_ne (fun hc => hwi hc.symm)]
                        exact hw
                      · intro w hmem kk q' hk'
                        obtain ⟨thw, tiw, svw, pw, hw, hphw, htkww⟩ :=
                          okCvEntry_elim (h.cvOk cv q hq w hmem)
                        have hk2 : (c.cvs.set cv [])[kk]? = some q' := hk'
                        by_cases hkcv : kk = cv
                        · subst hkcv
                          rw [List.getElem?_set_eq_of_lt _ hcvlt] at hk2
                          have := Option.some_injective _ hk2
                          subst this
                          exact List.not_mem_nil w
                        · rw [List.getElem?_set_ne
                            (fun hc => hkcv hc.symm)] at hk2
                          exact waiting_not_elsewhere h hw hphw hk2 hkcv
                      · exact h.cvNodup cv q hq
      | waitingCV cv timed sv p =>
          cases timed with
          | false => exact Option.noConfusion hstep
          | true =>
              dsimp only at hstep
              rw [if_pos rfl] at hstep
              cases hq : c.cvs[cv]? with
              | none =>
                  rw [hq] at hstep
                  exact Option.noConfusion hstep
              | some q =>
                  rw [hq] at hstep
                  dsimp only at hstep
                  by_cases hmem : i ∈ q
                  · rw [if_pos hmem] at hstep
                    cases hstep
                    obtain ⟨thx, tix, svx, px, hthx, hphx, htkx⟩ :=
                      okCvEntry_elim (h.cvOk cv q hq i hmem)
                    rw [hth] at hthx
                    have hthx2 := Option.some_injective _ hthx
                    have htki : tk = none := by
                      rw [← hthx2] at htkx
                      exact htkx
                    subst htki
                    have hndq := h.cvNodup cv q hq
                    have hcvlt : cv < c.cvs.length := lt_length_of_getElem? hq
                    have h0 : ConfigInv { c with cvs := c.cvs.set cv (q.erase i) } :=
                      configInv_cvShrink h hq (q.erase i)
                        (fun x hx => List.mem_of_mem_erase hx)
                        (List.Nodup.erase i hndq)
                    have hi0 : c.threads[i]? = some
                        { phase := Phase.waitingCV cv true sv p, tok := none,
                          res := rs } := hth
                    have hwq0 : ∀ (kk : Nat) (q' : List Nat),
                        (c.cvs.set cv (q.erase i))[kk]? = some q' → i ∉ q' := by
                      intro kk q' hk'
                      by_cases hkcv : kk = cv
                      · subst hkcv
                        rw [List.getElem?_set_eq_of_lt _ hcvlt] at hk'
                        have := Option.some_injective _ hk'
                        subst this
                        intro hc
                        exact ((List.Nodup.mem_erase_iff hndq).mp hc).1 rfl
                      · rw [List.getElem?_set_ne (fun hc => hkcv hc.symm)] at hk'
                        exact waiting_not_elsewhere h hth rfl hk' hkcv
                    exact configInv_resolveWaiter h0 hi0 rfl rfl hwq0 false
                  · rw [if_neg hmem] at hstep
                    exact Option.noConfusion hstep
      | blockedEnter p => exact Option.noConfusion hstep
      | blockedReacq p => exact Option.noConfusion hstep
      | terminated => exact Option.noConfusion hstep

theorem configInv_reach {c c' : Config} (h : ConfigInv c) (hr : Reach c c') :
    ConfigInv c' := by
  induction hr with
  | refl => exact h
  | tail _ hstep ih => exact configInv_step ih hstep

theorem final_check_of_reach (S : List Config) (c0 : Config)
    (ok : Config → Bool)
    (h0 : c0 ∈ S) (hcl : decideClosed S = true)
    (hchk : checkFinals S ok = true) {c : Config} (hr : Reach c0 c)
    (hterm : succs c = []) : ok c = true := by
  have hmem : c ∈ S := reach_mem_of_closed h0 hcl hr
  have h2 := List.all_eq_true.mp hchk c hmem
  have ht : terminalB c = true := decide_eq_true hterm
  rw [ht] at h2
  simpa using h2

/-- C1: Mutual exclusion.  (i) In every configuration reachable from a
well-formed configuration, at most one computation holds the section (an owner
token); (ii) in the two-computation marker scenario of the test suite, every
terminal schedule produces one of the two fully-sequential orderings —
critical sections are never interleaved. -/
theorem C1_mutual_exclusion :
    (∀ c c' : Config, ConfigInv c → Reach c c' → holderCount c' ≤ 1) ∧
    (∀ c : Config, Reach mutexInit c → succs c = [] →
      c.trace = [1, 2, 3, 4] ∨ c.trace = [3, 4, 1, 2]) := by
  constructor
  · intro c c' h hr
    have h' := configInv_reach h hr
    exact holderCount_le_one_of_unique c'.threads h'.holderUnique
  · intro c hr hterm
    have hok := final_check_of_reach mutexReach mutexInit
      (fun c : Config =>
        decide (c.trace = [1, 2, 3, 4] ∨ c.trace = [3, 4, 1, 2]))
      (by decide) (by decide) (by decide) hr hterm
    exact of_decide_eq_true hok

/-- Witness for C1 at concrete inputs: the initial scenario configuration is
well formed with no holder, and the sequential schedule running computation 0
to completion and then computation 1 yields the trace `[1, 2, 3, 4]`. -/
theorem C1_mutual_exclusion_witness :
    holderCount mutexInit ≤ 1 ∧
    ((runSteps mutexInit [0, 0, 0, 0, 0, 1, 1, 1, 1, 1]).trace = [1, 2, 3, 4] ∨
      (runSteps mutexInit [0, 0, 0, 0, 0, 1, 1, 1, 1, 1]).trace = [3, 4, 1, 2]) :=
  ⟨C1_mutual_exclusion.1 mutexInit mutexInit
      (configInv_of_invB (by decide)) Relation.ReflTransGen.refl,
    C1_mutual_exclusion.2 _
      (reach_runSteps mutexInit [0, 0, 0, 0, 0, 1, 1, 1, 1, 1] (by decide))
      (by decide)⟩

/-- C2: Wakeup scheduler ordering.  Whenever occupancy is cleared, the wakeup
scheduler grants the head of the Reacquisition Queue if non-empty (leaving the
Lock Queue untouched), else the head of the Lock Queue, else leaves the
section unoccupied; and in the contention scenario a signaled waiter regains
the section before the already-queued first-time entrant (trace `[1, 2]` in
every terminal schedule). -/
theorem C2_wakeup_priority :
    (∀ (s : MonitorState) (tid : Nat) (sv : LockOwner)
        (rest : List (Nat × LockOwner)),
      s.condQueue = (tid, sv) :: rest →
      s.wakeupNext.1 = some (tid, sv) ∧ s.wakeupNext.2.owner = some sv ∧
        s.wakeupNext.2.locked = true ∧ s.wakeupNext.2.condQueue = rest ∧
        s.wakeupNext.2.lockQueue = s.lockQueue) ∧
    (∀ (s : MonitorState) (tid : Nat) (rest : List Nat),
      s.condQueue = [] → s.lockQueue = tid :: rest →
      s.wakeupNext.1 = some (tid, { id := s.nextId, count := 1 }) ∧
        s.wakeupNext.2.owner = some { id := s.nextId, count := 1 } ∧
        s.wakeupNext.2.locked = true ∧ s.wakeupNext.2.lockQueue = rest) ∧
    (∀ s : MonitorState, s.condQueue = [] → s.lockQueue = [] →
      s.wakeupNext = (none, s)) ∧
    (∀ c : Config, Reach wakeupInit c → succs c = [] → c.trace = [1, 2]) := by
  refine ⟨?_, ?_, ?_, ?_⟩
  · intro s tid sv rest h
    simp [MonitorState.wakeupNext, h]
  · intro s tid rest h1 h2
    simp [MonitorState.wakeupNext, h1, h2]
  · intro s h1 h2
    simp only [MonitorState.wakeupNext, h1, h2]
  · intro c hr hterm
    have hok := final_check_of_reach wakeupReach wakeupInit
      (fun c : Config => decide (c.trace = [1, 2]))
      (by decide) (by decide) (by decide) hr hterm
    exact of_decide_eq_true hok

/-- Witness for C2 at concrete inputs: a state with both queues populated
grants the Reacquisition Queue head; one with only a Lock Queue grants its
head a fresh token; the empty state stays unoccupied; and the scenario's
deterministic schedule (signal, exit, waiter runs, entrant runs) ends with
trace `[1, 2]`. -/
theorem C2_wakeup_priority_witness :
    ({ locked := false, owner := none, lockQueue := [7],
       condQueue := [(3, { id := 5, count := 1 })], nextId := 9 } :
        MonitorState).wakeupNext.1 = some (3, { id := 5, count := 1 }) ∧
    ({ locked := false, owner := none, lockQueue := [7], condQueue := [],
       nextId := 9 } : MonitorState).wakeupNext.1 =
      some (7, { id := 9, count := 1 }) ∧
    ({ locked := false, owner := none, lockQueue := [], condQueue := [],
       nextId := 9 } : MonitorState).wakeupNext.1 = none ∧
    (runSteps wakeupInit [1, 1, 0, 0, 2, 2, 0, 1, 2]).trace = [1, 2] :=
  ⟨(C2_wakeup_priority.1 _ 3 _ [] rfl).1,
    (C2_wakeup_priority.2.1 _ 7 [] rfl rfl).1,
    by rw [(C2_wakeup_priority.2.2.1 _ rfl rfl)],
    C2_wakeup_priority.2.2.2 _
      (reach_runSteps wakeupInit [1, 1, 0, 0, 2, 2, 0, 1, 2] (by decide)) (by decide)⟩

/-- C3: `exit(token)` error atomicity.  For every state, exiting with a token
that is not the current owner — including any call while the section is
unoccupied — signals `ThreadError`, grants nothing, and leaves the whole lock
state (occupancy, owner, both queues, hence `monLocked`/`monOwned`)
unchanged. -/
theorem C3_exit_error_atomic :
    ∀ (s : MonitorState) (tok : LockOwner), s.owner ≠ some tok →
      (s.exitRun tok).1 = some MonError.threadError ∧
      (s.exitRun tok).2.1 = none ∧
      (s.exitRun tok).2.2 = s ∧
      (s.exitRun tok).2.2.monLocked = s.monLocked ∧
      (∀ q : Option LockOwner, (s.exitRun tok).2.2.monOwned q = s.monOwned q) ∧
      (s.exitRun tok).2.2.lockQueue = s.lockQueue ∧
      (s.exitRun tok).2.2.condQueue = s.condQueue := by
  intro s tok h
  unfold MonitorState.exitRun
  rw [if_neg h]
  exact ⟨rfl, rfl, rfl, rfl, fun q => rfl, rfl, rfl⟩

/-- Witness for C3 at a concrete input: a monitor locked by token `⟨0,1⟩`
with populated queues; exiting with the foreign token `⟨5,1⟩` errors and the
state is returned unchanged. -/
theorem C3_exit_error_atomic_witness :
    (({ locked := true, owner := some { id := 0, count := 1 },
        lockQueue := [4], condQueue := [(2, { id := 1, count := 1 })],
        nextId := 6 } : MonitorState).exitRun
          { id := 5, count := 1 }).1 = some MonError.threadError ∧
    (({ locked := true, owner := some { id := 0, count := 1 },
        lockQueue := [4], condQueue := [(2, { id := 1, count := 1 })],
        nextId := 6 } : MonitorState).exitRun
          { id := 5, count := 1 }).2.2 =
      { locked := true, owner := some { id := 0, count := 1 },
        lockQueue := [4], condQueue := [(2, { id := 1, count := 1 })],
        nextId := 6 } :=
  ⟨(C3_exit_error_atomic _ _ (by decide)).1,
    (C3_exit_error_atomic _ _ (by decide)).2.2.1⟩

/-- C5: `signal()` semantics.  On a non-empty queue it removes exactly the
head record (the longest-waiting waiter); on an empty queue it is a no-op and
nothing is stored for future waiters; and in the two-waiter scenario one
signal resumes exactly the first waiter while the second remains suspended
with its queue record intact. -/
theorem C5_signal_semantics :
    (∀ (w : Nat) (rest : List Nat), cvSignal (w :: rest) = (some w, rest)) ∧
    cvSignal [] = (none, []) ∧
    (∀ s : MonitorState, s.locked = true →
      cvSignalOp s [] = Except.ok (none, [])) ∧
    (∀ c : Config, Reach signalOnceInit c → succs c = [] →
      c.trace = [1] ∧
      c.threads[1]? = some
        { phase := Phase.waitingCV 0 false { id := 1, count := 1 }
            (Prog.push 2 (Prog.exit Prog.done)),
          tok := none, res := none } ∧
      c.cvs = [[1]]) := by
  refine ⟨fun w rest => rfl, rfl, ?_, ?_⟩
  · intro s hl
    simp [cvSignalOp, cvCheckOwned, hl, cvSignal]
  · intro c hr hterm
    have hok := final_check_of_reach signalOnceReach signalOnceInit
      (fun c : Config => decide (c.trace = [1] ∧
        c.threads[1]? = some
          { phase := Phase.waitingCV 0 false { id := 1, count := 1 }
              (Prog.push 2 (Prog.exit Prog.done)),
            tok := none, res := none } ∧
        c.cvs = [[1]]))
      (by decide) (by decide) (by decide) hr hterm
    exact of_decide_eq_true hok

/-- Witness for C5 at concrete inputs: a two-element queue loses exactly its
head; the empty-queue signal under a locked monitor is a no-op; and the
deterministic schedule of the two-waiter scenario ends with trace `[1]` and
waiter 1 still queued. -/
theorem C5_signal_semantics_witness :
    cvSignal [4, 9] = (some 4, [9]) ∧
    cvSignalOp
      { locked := true, owner := some { id := 0, count := 1 },
        lockQueue := [], condQueue := [], nextId := 1 } [] =
      Except.ok (none, []) ∧
    (runSteps signalOnceInit [2, 2, 2, 0, 0, 0, 2]).trace = [1] :=
  ⟨C5_signal_semantics.1 4 [9],
    C5_signal_semantics.2.2.1 _ rfl,
    (C5_signal_semantics.2.2.2 _
      (reach_runSteps signalOnceInit [2, 2, 2, 0, 0, 0, 2] (by decide))
      (by decide)).1⟩

theorem waitWhileRun_spec (pred : Nat → Bool) (dur : Nat → Nat) :
    ∀ remaining iter : Nat,
      (∀ b ∈ (waitWhileRun pred dur remaining iter).budgets, b ≤ remaining) ∧
      List.Chain' (fun a b => b < a)
        (waitWhileRun pred dur remaining iter).budgets ∧
      ((waitWhileRun pred dur remaining iter).result = true →
        pred (iter + (waitWhileRun pred dur remaining iter).budgets.length) =
          false) ∧
      ((waitWhileRun pred dur remaining iter).result = false →
        pred (iter + (waitWhileRun pred dur remaining iter).budgets.length) =
          true ∧
        (waitWhileRun pred dur remaining iter).leftover = 0) := by
  intro remaining
  induction remaining using Nat.strong_induction_on with
  | _ remaining ih =>
      intro iter
      unfold waitWhileRun
      by_cases hp : pred iter = false
      · rw [if_pos hp]
        exact ⟨by simp, by simp, fun _ => by simpa using hp,
          fun hc => absurd hc (by simp)⟩
      · rw [if_neg hp]
        by_cases hz : remaining = 0
        · rw [dif_pos hz]
          refine ⟨by simp, by simp, fun hc => absurd hc (by simp), fun _ => ?_⟩
          constructor
          · simpa using Bool.of_not_eq_false hp
          · rfl
        · rw [dif_neg hz]
          have hsp : 1 ≤ min (max (dur iter) 1) remaining :=
            le_min (le_max_right _ _) (Nat.one_le_iff_ne_zero.mpr hz)
          have hlt : remaining - min (max (dur iter) 1) remaining < remaining := by
            omega
          obtain ⟨ihb, ihc, iht, ihf⟩ := ih _ hlt (iter + 1)
          refine ⟨?_, ?_, ?_, ?_⟩
          · intro b hb
            rcases List.mem_cons.mp hb with hb | hb
            · omega
            · have := ihb b hb
              omega
          · rw [List.chain'_cons']
            refine ⟨?_, ihc⟩
            intro b hb
            have hmem : b ∈ (waitWhileRun pred dur
                (remaining - min (max (dur iter) 1) remaining)
                (iter + 1)).budgets := by
              exact List.mem_of_mem_head? hb
            have := ihb b hmem
            omega
          · intro hres
            have := iht hres
            have harith : iter + 1 + (waitWhileRun pred dur
                (remaining - min (max (dur iter) 1) remaining)
                (iter + 1)).budgets.length =
              iter + ((waitWhileRun pred dur
                (remaining - min (max (dur iter) 1) remaining)
                (iter + 1)).budgets.length + 1) := by omega
            rw [harith] at this
            simpa using this
          · intro hres
            obtain ⟨h1, h2⟩ := ihf hres
            have harith : iter + 1 + (waitWhileRun pred dur
                (remaining - min (max (dur iter) 1) remaining)
                (iter + 1)).budgets.length =
              iter + ((waitWhileRun pred dur
                (remaining - min (max (dur iter) 1) remaining)
                (iter + 1)).budgets.length + 1) := by omega
            rw [harith] at h1
            exact ⟨by simpa using h1, h2⟩

/-- C6: `waitWhile(predicate, timeoutMillis)` deadline semantics.  One overall
deadline governs the call: every inner wait receives at most the original
budget, successive inner waits receive strictly decreasing remaining budgets
(elapsed time is never forgotten, in contrast to handing each wait the
original `timeoutMillis`), the first wait receives exactly the full budget,
the call returns true exactly when the predicate evaluated false, and returns
false only with the budget exhausted while the predicate was still true. -/
theorem C6_waitWhile_deadline :
    ∀ (pred : Nat → Bool) (dur : Nat → Nat) (t : Nat),
      (∀ b ∈ (waitWhileRun pred dur t 0).budgets, b ≤ t) ∧
      List.Chain' (fun a b => b < a) (waitWhileRun pred dur t 0).budgets ∧
      ((waitWhileRun pred dur t 0).result = true →
        pred (waitWhileRun pred dur t 0).budgets.length = false) ∧
      ((waitWhileRun pred dur t 0).result = false →
        pred (waitWhileRun pred dur t 0).budgets.length = true ∧
        (waitWhileRun pred dur t 0).leftover = 0) ∧
      (0 < t → pred 0 = true →
        (waitWhileRun pred dur t 0).budgets.head? = some t) := by
  intro pred dur t
  obtain ⟨hb, hc, ht, hf⟩ := waitWhileRun_spec pred dur t 0
  refine ⟨hb, hc, by simpa using ht, by simpa using hf, ?_⟩
  intro hpos hp0
  unfold waitWhileRun
  rw [if_neg (by simp [hp0]), dif_neg (by omega)]
  rfl

/-- Witness for C6 at a concrete input: predicate `n < 2`, each wait consuming
3 units, overall budget 5: the two inner waits receive budgets `[5, 2]` —
strictly decreasing with the full budget first. -/
theorem C6_waitWhile_deadline_witness :
    List.Chain' (fun a b => b < a)
      (waitWhileRun (fun n => decide (n < 2)) (fun _ => 3) 5 0).budgets ∧
    (waitWhileRun (fun n => decide (n < 2)) (fun _ => 3) 5 0).budgets.head? =
      some 5 :=
  ⟨(C6_waitWhile_deadline (fun n => decide (n < 2)) (fun _ => 3) 5).2.1,
    (C6_waitWhile_deadline (fun n => decide (n < 2)) (fun _ => 3) 5).2.2.2.2
      (by decide) (by decide)⟩

/-- C7: `waitUntil` is `waitWhile` with the predicate inverted: for every
predicate, wait-duration sequence, budget and iteration counter the two loops
return the same outcome, the same budget sequence handed to the inner waits,
and the same leftover budget. -/
theorem C7_waitUntil_equiv :
    ∀ (pred : Nat → Bool) (dur : Nat → Nat) (remaining iter : Nat),
      waitUntilRun pred dur remaining iter =
        waitWhileRun (fun n => !(pred n)) dur remaining iter := by
  intro pred dur remaining
  induction remaining using Nat.strong_induction_on with
  | _ remaining ih =>
      intro iter
      unfold waitUntilRun waitWhileRun
      by_cases hp : pred iter = true
      · rw [if_pos hp, if_pos (by simp [hp])]
      · have hp' : pred iter = false := Bool.of_not_eq_true hp
        rw [if_neg hp, if_neg (by simp [hp'])]
        by_cases hz : remaining = 0
        · rw [dif_pos hz, dif_pos hz]
        · rw [dif_neg hz, dif_neg hz]
          dsimp only
          have hsp : 1 ≤ min (max (dur iter) 1) remaining :=
            le_min (le_max_right _ _) (Nat.one_le_iff_ne_zero.mpr hz)
          rw [ih (remaining - min (max (dur iter) 1) remaining) (by omega)
            (iter + 1)]

/-- C8: Condition-variable ownership precondition.  Every operation of a
condition variable — `wait`, `waitWhile`, `waitUntil`, `signal`, `broadcast` —
invoked while the bound monitor's section is not held (unoccupied, no owner)
signals `ThreadError` synchronously to the caller; the error value is
returned, not recovered internally. -/
theorem C8_cv_ownership_check :
    ∀ s : MonitorState, s.locked = false → s.owner = none →
      cvWaitOp s = Except.error MonError.threadError ∧
      (∀ q : List Nat, cvSignalOp s q = Except.error MonError.threadError) ∧
      (∀ q : List Nat, cvBroadcastOp s q = Except.error MonError.threadError) ∧
      (∀ (pred : Nat → Bool) (dur : Nat → Nat) (t : Nat),
        cvWaitWhileOp s pred dur t = Except.error MonError.threadError) ∧
      (∀ (pred : Nat → Bool) (dur : Nat → Nat) (t : Nat),
        cvWaitUntilOp s pred dur t = Except.error MonError.threadError) := by
  intro s hl ho
  refine ⟨?_, ?_, ?_, ?_, ?_⟩
  · simp [cvWaitOp, MonitorState.exitForCond, ho]
  · intro q
    simp [cvSignalOp, cvCheckOwned, hl]
  · intro q
    simp [cvBroadcastOp, cvCheckOwned, hl]
  · intro pred dur t
    simp [cvWaitWhileOp, cvCheckOwned, hl]
  · intro pred dur t
    simp [cvWaitUntilOp, cvCheckOwned, hl]

/-- Witness for C8 at a concrete input: all five operations on the freshly
created (unoccupied) monitor signal `ThreadError`. -/
theorem C8_cv_ownership_check_witness :
    cvWaitOp MonitorState.init = Except.error MonError.threadError ∧
    cvSignalOp MonitorState.init [3] = Except.error MonError.threadError ∧
    cvBroadcastOp MonitorState.init [3] = Except.error MonError.threadError ∧
    cvWaitWhileOp MonitorState.init (fun _ => true) (fun _ => 1) 5 =
      Except.error MonError.threadError ∧
    cvWaitUntilOp MonitorState.init (fun _ => false) (fun _ => 1) 5 =
      Except.error MonError.threadError :=
  ⟨(C8_cv_ownership_check MonitorState.init rfl rfl).1,
    (C8_cv_ownership_check MonitorState.init rfl rfl).2.1 [3],
    (C8_cv_ownership_check MonitorState.init rfl rfl).2.2.1 [3],
    (C8_cv_ownership_check MonitorState.init rfl rfl).2.2.2.1 _ _ 5,
    (C8_cv_ownership_check MonitorState.init rfl rfl).2.2.2.2 _ _ 5⟩

/-- C10: The pre-wait token survives a condition wait.  A reacquisition grant
makes the very owner state captured at `releaseForWait` the current owner
again (so `monOwned` of the original token is true and `exit` with it
succeeds), rather than minting a fresh token; in the scenario the waiter
observes after `wait` that its original token `⟨0,1⟩` is again the monitor's
owner (trace `[1]`, not `[2]`) and then exits with it successfully (every
terminal schedule has both computations terminated). -/
theorem C10_token_reinstated :
    (∀ (s : MonitorState) (tid : Nat) (sv : LockOwner)
        (rest : List (Nat × LockOwner)),
      s.condQueue = (tid, sv) :: rest →
      s.wakeupNext.2.monOwned (some sv) = true) ∧
    (∀ c : Config, Reach reinstateInit c → succs c = [] →
      c.trace = [1] ∧
      c.threads.all (fun th => decide (th.phase = Phase.terminated)) = true) := by
  constructor
  · intro s tid sv rest h
    simp [MonitorState.wakeupNext, MonitorState.monOwned, h]
  · intro c hr hterm
    have hok := final_check_of_reach reinstateReach reinstateInit
      (fun c : Config => decide (c.trace = [1] ∧
        c.threads.all (fun th => decide (th.phase = Phase.terminated)) = true))
      (by decide) (by decide) (by decide) hr hterm
    exact of_decide_eq_true hok

/-- Witness for C10 at concrete inputs: granting the queued reacquisition of
token `⟨4,1⟩` reinstates exactly that token as owner, and the scenario's
deterministic schedule ends with trace `[1]`. -/
theorem C10_token_reinstated_witness :
    ({ locked := false, owner := none, lockQueue := [],
       condQueue := [(0, { id := 4, count := 1 })], nextId := 6 } :
        MonitorState).wakeupNext.2.monOwned
      (some { id := 4, count := 1 }) = true ∧
    (runSteps reinstateInit [1, 1, 1, 0, 0, 0, 1]).trace = [1] :=
  ⟨C10_token_reinstated.1 _ 0 _ [] rfl,
    (C10_token_reinstated.2 _
      (reach_runSteps reinstateInit [1, 1, 1, 0, 0, 0, 1] (by decide))
      (by decide)).1⟩

/-- C9 counterexample: "every previously issued token becomes permanently
invalid the instant the section is released" is false.  Concretely: from a
fresh monitor, computation 0 enters (receiving token `⟨0,1⟩`) and performs a
condition wait — releasing the section, at which point `monOwned ⟨0,1⟩` is
false — then computation 1 enters, signals and exits; the wakeup reinstates
`⟨0,1⟩`: `monOwned ⟨0,1⟩` is true again and `exit ⟨0,1⟩` succeeds, in a state
reachable purely by public operations. -/
theorem C9_counterexample :
    Reach revalInit (runSteps revalInit [0, 0]) ∧
    (runSteps revalInit [0, 0]).mon.monOwned
      (some { id := 0, count := 1 }) = false ∧
    Reach revalInit (runSteps revalInit [0, 0, 1, 1, 1]) ∧
    (runSteps revalInit [0, 0, 1, 1, 1]).mon.monOwned
      (some { id := 0, count := 1 }) = true ∧
    ((runSteps revalInit [0, 0, 1, 1, 1]).mon.exitRun
      { id := 0, count := 1 }).1 = none := by
  refine ⟨reach_runSteps _ _ (by decide), by decide,
    reach_runSteps _ _ (by decide), by decide, by decide⟩

/-- C9 (amended): in every configuration reachable from a well-formed one,
`occupied == false ⇔ currentOwner == empty`, and at most one owner token is
valid at a time (`monOwned` accepts at most the unique current owner).  A
token is, however, not permanently invalidated by a release: one captured by
`releaseForWait` is reinstated as the valid owner when its wait reacquires
the section (see the counterexample). -/
theorem C9_lock_state_invariant :
    (∀ c c' : Config, ConfigInv c → Reach c c' →
      (c'.mon.monLocked = false ↔ c'.mon.owner = none)) ∧
    (∀ (s : MonitorState) (t t' : LockOwner),
      s.monOwned (some t) = true → s.monOwned (some t') = true → t = t') := by
  constructor
  · intro c c' h hr
    have h' := configInv_reach h hr
    have hli := h'.lockedIff
    unfold MonitorState.monLocked
    constructor
    · intro hl
      rw [hl] at hli
      exact Option.not_isSome_iff_eq_none.mp (by rw [← hli]; simp)
    · intro ho
      rw [ho] at hli
      simpa using hli
  · intro s t t' h1 h2
    unfold MonitorState.monOwned at h1 h2
    have e1 := of_decide_eq_true h1
    have e2 := of_decide_eq_true h2
    rw [e1] at e2
    exact Option.some_injective _ e2

/-- Witness for C9 at concrete inputs: the fresh two-computation
configuration is well formed and unoccupied with no owner; and a monitor
owned by `⟨2,1⟩` validates that token uniquely. -/
theorem C9_lock_state_invariant_witness :
    (revalInit.mon.monLocked = false ↔ revalInit.mon.owner = none) ∧
    ({ id := 2, count := 1 } : LockOwner) = { id := 2, count := 1 } :=
  ⟨C9_lock_state_invariant.1 revalInit revalInit
      (configInv_of_invB (by decide)) Relation.ReflTransGen.refl,
    C9_lock_state_invariant.2
      { locked := true, owner := some { id := 2, count := 1 }, lockQueue := [],
        condQueue := [], nextId := 3 }
      { id := 2, count := 1 } { id := 2, count := 1 }
      (by decide) (by decide)⟩

theorem applyGrant_at_waiting {lst : List Thread} {i : Nat} {th : Thread}
    (g : Option (Nat × LockOwner)) (hi : lst[i]? = some th)
    {cv : Nat} {ti : Bool} {sv : LockOwner} {p : Prog}
    (hph : th.phase = Phase.waitingCV cv ti sv p) :
    (applyGrant g lst)[i]? = some th := by
  unfold applyGrant
  cases g with
  | none => exact hi
  | some e =>
      obtain ⟨tid, t⟩ := e
      dsimp only
      by_cases htid : tid = i
      · subst htid
        rw [hi]
        obtain ⟨ph0, tk0, rs0⟩ := th
        simp only at hph
        subst hph
        exact hi
      · cases hg : lst[tid]? with
        | none => exact hi
        | some thg =>
            obtain ⟨phg, tkg, rsg⟩ := thg
            cases phg <;> dsimp only <;>
              first
                | exact hi
                | (rw [List.getElem?_set_ne htid]; exact hi)

theorem applyGrant_at_reacq {lst : List Thread} {i : Nat} {th : Thread}
    {t : LockOwner} (hi : lst[i]? = some th) {p : Prog}
    (hph : th.phase = Phase.blockedReacq p) :
    applyGrant (some (i, t)) lst =
      lst.set i { th with phase := Phase.run p, tok := some t } := by
  simp only [applyGrant, hi, hph]

theorem resolveWaiter_not_waiting {c : Config} {w : Nat} {th : Thread}
    (r : Bool) (hw : c.threads[w]? = some th)
    (hph : ∀ cv ti sv p, th.phase ≠ Phase.waitingCV cv ti sv p) :
    resolveWaiter c w r = c := by
  unfold resolveWaiter
  rw [hw]
  obtain ⟨phw, tkw, rsw⟩ := th
  cases phw <;> dsimp only <;>
    first
      | rfl
      | exact absurd rfl (hph _ _ _ _)

theorem resolveWaiter_at_other {c : Config} {w i : Nat} (r : Bool)
    (hwi : w ≠ i) :
    (resolveWaiter c w r).threads[i]? = c.threads[i]? := by
  cases hw : c.threads[w]? with
  | none =>
      unfold resolveWaiter
      rw [hw]
  | some thw =>
      obtain ⟨phw, tkw, rsw⟩ := thw
      cases phw with
      | waitingCV cv ti sv pw =>
          by_cases hl : c.mon.locked = true
          · rw [resolveWaiter_eq_locked r hw rfl hl]
            exact List.getElem?_set_ne hwi
          · rw [resolveWaiter_eq_unlocked r hw rfl (Bool.of_not_eq_true hl)]
            exact List.getElem?_set_ne hwi
      | run p =>
          rw [resolveWaiter_not_waiting r hw (by intro _ _ _ _ hc; simp at hc)]
      | blockedEnter p =>
          rw [resolveWaiter_not_waiting r hw (by intro _ _ _ _ hc; simp at hc)]
      | blockedReacq p =>
          rw [resolveWaiter_not_waiting r hw (by intro _ _ _ _ hc; simp at hc)]
      | terminated =>
          rw [resolveWaiter_not_waiting r hw (by intro _ _ _ _ hc; simp at hc)]

theorem resolveAll_not_waiting {i : Nat} {th : Thread}
    (ws : List Nat) {c : Config} (hi : c.threads[i]? = some th)
    (hph : ∀ cv ti sv p, th.phase ≠ Phase.waitingCV cv ti sv p) :
    (resolveAllSignaled c ws).threads[i]? = some th := by
  induction ws generalizing c with
  | nil => exact hi
  | cons w ws ih =>
      show (resolveAllSignaled (resolveWaiter c w true) ws).threads[i]? = some th
      apply ih
      by_cases hwi : w = i
      · subst hwi
        rw [resolveWaiter_not_waiting true hi hph]
        exact hi
      · rw [resolveWaiter_at_other true hwi]
        exact hi

theorem resolveAll_waiting {i : Nat} {th : Thread}
    {cv : Nat} {ti : Bool} {sv : LockOwner} {p : Prog}
    (ws : List Nat) {c : Config} (hi : c.threads[i]? = some th)
    (hph : th.phase = Phase.waitingCV cv ti sv p) :
    (resolveAllSignaled c ws).threads[i]? = some th ∨
    ∃ th', (resolveAllSignaled c ws).threads[i]? = some th' ∧
      th'.res = some true ∧
      (th'.phase = Phase.blockedReacq p ∨
        (th'.phase = Phase.run p ∧ th'.tok = some sv)) := by
  induction ws generalizing c with
  | nil => exact Or.inl hi
  | cons w ws ih =>
      show (resolveAllSignaled (resolveWaiter c w true) ws).threads[i]? =
          some th ∨ _
      by_cases hwi : w = i
      · subst hwi
        by_cases hl : c.mon.locked = true
        · have hi2 : (resolveWaiter c w true).threads[w]? =
              some { th with phase := Phase.blockedReacq p, res := some true } := by
            rw [resolveWaiter_eq_locked true hi hph hl]
            exact List.getElem?_set_eq_of_lt _ (lt_length_of_getElem? hi)
          have h3 := resolveAll_not_waiting ws hi2
            (by intro _ _ _ _ hc; simp at hc)
          exact Or.inr ⟨_, h3, rfl, Or.inl rfl⟩
        · have hi2 : (resolveWaiter c w true).threads[w]? =
              some { th with phase := Phase.run p, tok := some sv,
                             res := some true } := by
            rw [resolveWaiter_eq_unlocked true hi hph (Bool.of_not_eq_true hl)]
            exact List.getElem?_set_eq_of_lt _ (lt_length_of_getElem? hi)
          have h3 := resolveAll_not_waiting ws hi2
            (by intro _ _ _ _ hc; simp at hc)
          exact Or.inr ⟨_, h3, rfl, Or.inr ⟨rfl, rfl⟩⟩
      · have hi2 : (resolveWaiter c w true).threads[i]? = some th := by
          rw [resolveWaiter_at_other true hwi]
          exact hi
        exact ih hi2

theorem wait_resolution {c c' : Config} {j : Nat}
    (hstep : stepThread c j = some c')
    {i : Nat} {th : Thread} {cv : Nat} {ti : Bool} {sv : LockOwner} {p : Prog}
    (hi : c.threads[i]? = some th)
    (hph : th.phase = Phase.waitingCV cv ti sv p)
    {th' : Thread} (hi' : c'.threads[i]? = some th')
    (hne : th'.phase ≠ Phase.waitingCV cv ti sv p) :
    (th'.res = some true ∨ (th'.res = some false ∧ ti = true ∧ j = i)) ∧
    (th'.phase = Phase.blockedReacq p ∨
      (th'.phase = Phase.run p ∧ th'.tok = some sv)) := by
  cases hthj : c.threads[j]? with
  | none =>
      unfold stepThread at hstep
      rw [hthj] at hstep
      exact Option.noConfusion hstep
  | some thj =>
      unfold stepThread at hstep
      rw [hthj] at hstep
      obtain ⟨phj, tkj, rsj⟩ := thj
      cases phj with
      | run pj =>
          have hij : j ≠ i := by
            intro hc
            subst hc
            rw [hi] at hthj
            have hth := Option.some_injective _ hthj
            rw [hth] at hph
            simp at hph
          cases pj with
          | done =>
              cases hstep
              rw [List.getElem?_set_ne hij, hi] at hi'
              exact absurd ((Option.some_injective _ hi') ▸ hph) hne
          | push m k =>
              cases hstep
              rw [List.getElem?_set_ne hij, hi] at hi'
              exact absurd ((Option.some_injective _ hi') ▸ hph) hne
          | pushIfRes a b k =>
              cases hstep
              rw [List.getElem?_set_ne hij, hi] at hi'
              exact absurd ((Option.some_injective _ hi') ▸ hph) hne
          | pushIfOwned a b k =>
              cases hstep
              rw [List.getElem?_set_ne hij, hi] at hi'
              exact absurd ((Option.some_injective _ hi') ▸ hph) hne
          | pushIfTok t a b k =>
              cases hstep
              rw [List.getElem?_set_ne hij, hi] at hi'
              exact absurd ((Option.some_injective _ hi') ▸ hph) hne
          | enter k =>
              cases tkj with
              | some t => exact Option.noConfusion hstep
              | none =>
                  simp only [MonitorState.enterRequest] at hstep
                  cases hlk : c.mon.locked with
                  | true =>
                      rw [if_pos hlk] at hstep
                      cases hstep
                      rw [List.getElem?_set_ne hij, hi] at hi'
                      exact absurd ((Option.some_injective _ hi') ▸ hph) hne
                  | false =>
                      rw [if_neg (by rw [hlk]; simp)] at hstep
                      cases hstep
                      rw [List.getElem?_set_ne hij, hi] at hi'
                      exact absurd ((Option.some_injective _ hi') ▸ hph) hne
          | exit k =>
              cases tkj with
              | none => exact Option.noConfusion hstep
              | some t =>
                  dsimp only at hstep
                  by_cases hown : c.mon.owner = some t
                  · rw [if_pos hown] at hstep
                    cases hstep
                    have hset : (c.threads.set j
                        { phase := Phase.run k, tok := none,
                          res := rsj })[i]? = some th := by
                      rw [List.getElem?_set_ne hij]
                      exact hi
                    have hx := applyGrant_at_waiting
                      (MonitorState.wakeupNext
                        { c.mon with locked := false, owner := none }).1
                      hset hph
                    exact absurd
                      ((Option.some_injective _ (hx.symm.trans hi')) ▸ hph) hne
                  · rw [if_neg hown] at hstep
                    exact Option.noConfusion hstep
          | wait cvj timedj k =>
              cases tkj with
              | none => exact Option.noConfusion hstep
              | some t =>
                  dsimp only at hstep
                  by_cases hown : c.mon.owner = some t
                  · rw [if_pos hown] at hstep
                    cases hq : c.cvs[cvj]? with
                    | none =>
                        rw [hq] at hstep
                        exact Option.noConfusion hstep
                    | some q =>
                        rw [hq] at hstep
                        cases hstep
                        have hset : (c.threads.set j
                            { phase := Phase.waitingCV cvj timedj t k,
                              tok := none, res := none })[i]? = some th := by
                          rw [List.getElem?_set_ne hij]
                          exact hi
                        have hx := applyGrant_at_waiting
                          (MonitorState.wakeupNext
                            { c.mon with locked := false, owner := none }).1
                          hset hph
                        exact absurd
                          ((Option.some_injective _ (hx.symm.trans hi')) ▸ hph)
                          hne
                  · rw [if_neg hown] at hstep
                    exact Option.noConfusion hstep
          | signal cvj k =>
              dsimp only at hstep
              cases hlk : c.mon.locked with
              | false =>
                  rw [if_neg (by rw [hlk]; simp)] at hstep
                  exact Option.noConfusion hstep
              | true =>
                  rw [if_pos hlk] at hstep
                  cases hq : c.cvs[cvj]? with
                  | none =>
                      rw [hq] at hstep
                      exact Option.noConfusion hstep
                  | some qq =>
                      rw [hq] at hstep
                      cases qq with
                      | nil =>
                          cases hstep
                          rw [List.getElem?_set_ne hij, hi] at hi'
                          exact absurd ((Option.some_injective _ hi') ▸ hph) hne
                      | cons w rest =>
                          cases hstep
                          by_cases hwi : w = i
                          · subst hwi
                            have hi1 : (Config.mk c.mon
                                (c.threads.set j
                                  { phase := Phase.run k, tok := tkj,
                                    res := rsj })
                                (c.cvs.set cvj rest) c.trace).threads[w]? =
                                some th := by
                              show (c.threads.set j
                                { phase := Phase.run k, tok := tkj,
                                  res := rsj })[w]? = some th
                              rw [List.getElem?_set_ne hij]
                              exact hi
                            have hval : (resolveWaiter (Config.mk c.mon
                                (c.threads.set j
                                  { phase := Phase.run k, tok := tkj,
                                    res := rsj })
                                (c.cvs.set cvj rest) c.trace) w
                                  true).threads[w]? =
                                some { th with phase := Phase.blockedReacq p,
                                               res := some true } := by
                              rw [resolveWaiter_eq_locked true hi1 hph hlk]
                              exact List.getElem?_set_eq_of_lt _
                                (lt_length_of_getElem? hi1)
                            have hth' := Option.some_injective _
                              (hval.symm.trans hi')
                            rw [← hth']
                            exact ⟨Or.inl rfl, Or.inl rfl⟩
                          · have h2 : (resolveWaiter (Config.mk c.mon
                                (c.threads.set j
                                  { phase := Phase.run k, tok := tkj,
                                    res := rsj })
                                (c.cvs.set cvj rest) c.trace) w
                                  true).threads[i]? = some th := by
                              rw [resolveWaiter_at_other true hwi]
                              show (c.threads.set j
                                { phase := Phase.run k, tok := tkj,
                                  res := rsj })[i]? = some th
                              rw [List.getElem?_set_ne hij]
                              exact hi
                            exact absurd
                              ((Option.some_injective _ (h2.symm.trans hi')) ▸
                                hph) hne
          | broadcast cvj k =>
              dsimp only at hstep
              cases hlk : c.mon.locked with
              | false =>
                  rw [if_neg (by rw [hlk]; simp)] at hstep
                  exact Option.noConfusion hstep
              | true =>
                  rw [if_pos hlk] at hstep
                  cases hq : c.cvs[cvj]? with
                  | none =>
                      rw [hq] at hstep
                      exact Option.noConfusion hstep
                  | some q =>
                      rw [hq] at hstep
                      cases hstep
                      have hi1 : (Config.mk c.mon
                          (c.threads.set j
                            { phase := Phase.run k, tok := tkj, res := rsj })
                          (c.cvs.set cvj []) c.trace).threads[i]? =
                          some th := by
                        show (c.threads.set j
                          { phase := Phase.run k, tok := tkj,
                            res := rsj })[i]? = some th
                        rw [List.getElem?_set_ne hij]
                        exact hi
                      rcases resolveAll_waiting q hi1 hph with hunch |
                        ⟨th2, hth2, hres, hphase⟩
                      · exact absurd
                          ((Option.some_injective _ (hunch.symm.trans hi')) ▸
                            hph) hne
                      · have hth' := Option.some_injective _
                          (hth2.symm.trans hi')
                        rw [← hth']
                        exact ⟨Or.inl hres, hphase⟩
      | waitingCV cvj timedj svj pj =>
          cases timedj with
          | false => exact Option.noConfusion hstep
          | true =>
              dsimp only at hstep
              rw [if_pos rfl] at hstep
              cases hq : c.cvs[cvj]? with
              | none =>
                  rw [hq] at hstep
                  exact Option.noConfusion hstep
              | some q =>
                  rw [hq] at hstep
                  dsimp only at hstep
                  by_cases hmem : j ∈ q
                  · rw [if_pos hmem] at hstep
                    cases hstep
                    by_cases hji : j = i
                    · subst hji
                      rw [hi] at hthj
                      have hthx := Option.some_injective _ hthj
                      have hphx : th.phase = Phase.waitingCV cvj true svj pj := by
                        rw [hthx]
                      obtain ⟨hcv, hti, hsv, hp⟩ :=
                        Phase.waitingCV.inj (hph.symm.trans hphx)
                      rw [hti, hsv, hp]
                      have hi1 : (Config.mk c.mon c.threads
                          (c.cvs.set cvj (q.erase j)) c.trace).threads[j]? =
                          some th := hi
                      cases hl : c.mon.locked with
                      | true =>
                          have hval : (resolveWaiter (Config.mk c.mon c.threads
                              (c.cvs.set cvj (q.erase j)) c.trace) j
                                false).threads[j]? =
                              some { th with phase := Phase.blockedReacq pj,
                                             res := some false } := by
                            rw [resolveWaiter_eq_locked false hi1 hphx hl]
                            exact List.getElem?_set_eq_of_lt _
                              (lt_length_of_getElem? hi1)
                          have hth' := Option.some_injective _
                            (hval.symm.trans hi')
                          rw [← hth']
                          exact ⟨Or.inr ⟨rfl, rfl, rfl⟩, Or.inl rfl⟩
                      | false =>
                          have hval : (resolveWaiter (Config.mk c.mon c.threads
                              (c.cvs.set cvj (q.erase j)) c.trace) j
                                false).threads[j]? =
                              some { th with phase := Phase.run pj,
                                             tok := some svj,
                                             res := some false } := by
                            rw [resolveWaiter_eq_unlocked false hi1 hphx hl]
                            exact List.getElem?_set_eq_of_lt _
                              (lt_length_of_getElem? hi1)
                          have hth' := Option.some_injective _
                            (hval.symm.trans hi')
                          rw [← hth']
                          exact ⟨Or.inr ⟨rfl, rfl, rfl⟩, Or.inr ⟨rfl, rfl⟩⟩
                    · have h2 : (resolveWaiter (Config.mk c.mon c.threads
                          (c.cvs.set cvj (q.erase j)) c.trace) j
                            false).threads[i]? = some th := by
                        rw [resolveWaiter_at_other false hji]
                        exact hi
                      exact absurd
                        ((Option.some_injective _ (h2.symm.trans hi')) ▸ hph)
                        hne
                  · rw [if_neg hmem] at hstep
                    exact Option.noConfusion hstep
      | blockedEnter pj => exact Option.noConfusion hstep
      | blockedReacq pj => exact Option.noConfusion hstep
      | terminated => exact Option.noConfusion hstep

theorem applyGrant_at_other {lst : List Thread} {tid i : Nat} (t : LockOwner)
    (hne : tid ≠ i) : (applyGrant (some (tid, t)) lst)[i]? = lst[i]? := by
  unfold applyGrant
  dsimp only
  cases hg : lst[tid]? with
  | none => rfl
  | some thg =>
      obtain ⟨phg, tkg, rsg⟩ := thg
      cases phg <;> dsimp only <;>
        first
          | rfl
          | exact List.getElem?_set_ne hne

theorem reacq_grant {c c' : Config} {j : Nat}
    (hstep : stepThread c j = some c')
    {i : Nat} {th : Thread} {p : Prog}
    (hi : c.threads[i]? = some th) (hph : th.phase = Phase.blockedReacq p)
    {th' : Thread} (hi' : c'.threads[i]? = some th')
    (hne : th'.phase ≠ Phase.blockedReacq p) :
    th'.phase = Phase.run p ∧ th'.tok.isSome = true ∧
      c'.mon.owner = th'.tok ∧ th'.res = th.res := by
  cases hthj : c.threads[j]? with
  | none =>
      unfold stepThread at hstep
      rw [hthj] at hstep
      exact Option.noConfusion hstep
  | some thj =>
      unfold stepThread at hstep
      rw [hthj] at hstep
      obtain ⟨phj, tkj, rsj⟩ := thj
      cases phj with
      | run pj =>
          have hij : j ≠ i := by
            intro hc
            subst hc
            rw [hi] at hthj
            have hth := Option.some_injective _ hthj
            rw [hth] at hph
            simp at hph
          cases pj with
          | done =>
              cases hstep
              rw [List.getElem?_set_ne hij, hi] at hi'
              exact absurd ((Option.some_injective _ hi') ▸ hph) hne
          | push m k =>
              cases hstep
              rw [List.getElem?_set_ne hij, hi] at hi'
              exact absurd ((Option.some_injective _ hi') ▸ hph) hne
          | pushIfRes a b k =>
              cases hstep
              rw [List.getElem?_set_ne hij, hi] at hi'
              exact absurd ((Option.some_injective _ hi') ▸ hph) hne
          | pushIfOwned a b k =>
              cases hstep
              rw [List.getElem?_set_ne hij, hi] at hi'
              exact absurd ((Option.some_injective _ hi') ▸ hph) hne
          | pushIfTok t a b k =>
              cases hstep
              rw [List.getElem?_set_ne hij, hi] at hi'
              exact absurd ((Option.some_injective _ hi') ▸ hph) hne
          | enter k =>
              cases tkj with
              | some t => exact Option.noConfusion hstep
              | none =>
                  simp only [MonitorState.enterRequest] at hstep
                  cases hlk : c.mon.locked with
                  | true =>
                      rw [if_pos hlk] at hstep
                      cases hstep
                      rw [List.getElem?_set_ne hij, hi] at hi'
                      exact absurd ((Option.some_injective _ hi') ▸ hph) hne
                  | false =>
                      rw [if_neg (by rw [hlk]; simp)] at hstep
                      cases hstep
                      rw [List.getElem?_set_ne hij, hi] at hi'
                      exact absurd ((Option.some_injective _ hi') ▸ hph) hne
          | exit k =>
              cases tkj with
              | none => exact Option.noConfusion hstep
              | some t =>
                  dsimp only at hstep
                  by_cases hown : c.mon.owner = some t
                  · rw [if_pos hown] at hstep
                    cases hstep
                    have hset : (c.threads.set j
                        { phase := Phase.run k, tok := none,
                          res := rsj })[i]? = some th := by
                      rw [List.getElem?_set_ne hij]
                      exact hi
                    cases hcq : c.mon.condQueue with
                    | cons e rest =>
                        obtain ⟨w, sv⟩ := e
                        rw [releaseWakeup_eq_cond hcq] at hi' ⊢
                        by_cases hwi : w = i
                        · subst hwi
                          rw [applyGrant_at_reacq hset hph,
                            List.getElem?_set_eq_of_lt _
                              (lt_length_of_getElem? hset)] at hi'
                          have hth' := Option.some_injective _ hi'
                          rw [← hth']
                          exact ⟨rfl, rfl, rfl, rfl⟩
                        · rw [applyGrant_at_other sv hwi, hset] at hi'
                          exact absurd ((Option.some_injective _ hi') ▸ hph) hne
                    | nil =>
                        cases hlq : c.mon.lockQueue with
                        | cons w rest =>
                            rw [releaseWakeup_eq_lock hcq hlq] at hi' ⊢
                            by_cases hwi : w = i
                            · subst hwi
                              rw [applyGrant_at_reacq hset hph,
                                List.getElem?_set_eq_of_lt _
                                  (lt_length_of_getElem? hset)] at hi'
                              have hth' := Option.some_injective _ hi'
                              rw [← hth']
                              exact ⟨rfl, rfl, rfl, rfl⟩
                            · rw [applyGrant_at_other _ hwi, hset] at hi'
                              exact absurd
                                ((Option.some_injective _ hi') ▸ hph) hne
                        | nil =>
                            rw [releaseWakeup_eq_none hcq hlq] at hi'
                            rw [List.getElem?_set_ne hij, hi] at hi'
                            exact absurd
                              ((Option.some_injective _ hi') ▸ hph) hne
                  · rw [if_neg hown] at hstep
                    exact Option.noConfusion hstep
          | wait cvj timedj k =>
              cases tkj with
              | none => exact Option.noConfusion hstep
              | some t =>
                  dsimp only at hstep
                  by_cases hown : c.mon.owner = some t
                  · rw [if_pos hown] at hstep
                    cases hq : c.cvs[cvj]? with
                    | none =>
                        rw [hq] at hstep
                        exact Option.noConfusion hstep
                    | some q =>
                        rw [hq] at hstep
                        cases hstep
                        have hset : (c.threads.set j
                            { phase := Phase.waitingCV cvj timedj t k,
                              tok := none, res := none })[i]? = some th := by
                          rw [List.getElem?_set_ne hij]
                          exact hi
                        cases hcq : c.mon.condQueue with
                        | cons e rest =>
                            obtain ⟨w, sv⟩ := e
                            rw [show ({ releaseWakeup c j
                                { phase := Phase.waitingCV cvj timedj t k,
                                  tok := none, res := none } with
                                cvs := c.cvs.set cvj (q ++ [j]) } :
                                Config).threads =
                                (releaseWakeup c j
                                  { phase := Phase.waitingCV cvj timedj t k,
                                    tok := none, res := none }).threads
                                from rfl] at hi'
                            rw [releaseWakeup_eq_cond hcq] at hi'
                            by_cases hwi : w = i
                            · subst hwi
                              rw [applyGrant_at_reacq hset hph,
                                List.getElem?_set_eq_of_lt _
                                  (lt_length_of_getElem? hset)] at hi'
                              have hth' := Option.some_injective _ hi'
                              rw [← hth']
                              refine ⟨rfl, rfl, ?_, rfl⟩
                              show (releaseWakeup c j
                                { phase := Phase.waitingCV cvj timedj t k,
                                  tok := none, res := none }).mon.owner =
                                some sv
                              rw [releaseWakeup_eq_cond hcq]
                            · rw [applyGrant_at_other sv hwi, hset] at hi'
                              exact absurd
                                ((Option.some_injective _ hi') ▸ hph) hne
                        | nil =>
                            cases hlq : c.mon.lockQueue with
                            | cons w rest =>
                                rw [show ({ releaseWakeup c j
                                    { phase := Phase.waitingCV cvj timedj t k,
                                      tok := none, res := none } with
                                    cvs := c.cvs.set cvj (q ++ [j]) } :
                                    Config).threads =
                                    (releaseWakeup c j
                                      { phase := Phase.waitingCV cvj timedj t k,
                                        tok := none, res := none }).threads
                                    from rfl] at hi'
                                rw [releaseWakeup_eq_lock hcq hlq] at hi'
                                by_cases hwi : w = i
                                · subst hwi
                                  rw [applyGrant_at_reacq hset hph,
                                    List.getElem?_set_eq_of_lt _
                                      (lt_length_of_getElem? hset)] at hi'
                                  have hth' := Option.some_injective _ hi'
                                  rw [← hth']
                                  refine ⟨rfl, rfl, ?_, rfl⟩
                                  show (releaseWakeup c j
                                    { phase := Phase.waitingCV cvj timedj t k,
                                      tok := none, res := none }).mon.owner =
                                    some { id := c.mon.nextId, count := 1 }
                                  rw [releaseWakeup_eq_lock hcq hlq]
                                · rw [applyGrant_at_other _ hwi, hset] at hi'
                                  exact absurd
                                    ((Option.some_injective _ hi') ▸ hph) hne
                            | nil =>
                                rw [show ({ releaseWakeup c j
                                    { phase := Phase.waitingCV cvj timedj t k,
                                      tok := none, res := none } with
                                    cvs := c.cvs.set cvj (q ++ [j]) } :
                                    Config).threads =
                                    (releaseWakeup c j
                                      { phase := Phase.waitingCV cvj timedj t k,
                                        tok := none, res := none }).threads
                                    from rfl] at hi'
                                rw [releaseWakeup_eq_none hcq hlq] at hi'
                                rw [List.getElem?_set_ne hij, hi] at hi'
                                exact absurd
                                  ((Option.some_injective _ hi') ▸ hph) hne
                  · rw [if_neg hown] at hstep
                    exact Option.noConfusion hstep
          | signal cvj k =>
              dsimp only at hstep
              cases hlk : c.mon.locked with
              | false =>
                  rw [if_neg (by rw [hlk]; simp)] at hstep
                  exact Option.noConfusion hstep
              | true =>
                  rw [if_pos hlk] at hstep
                  cases hq : c.cvs[cvj]? with
                  | none =>
                      rw [hq] at hstep
                      exact Option.noConfusion hstep
                  | some qq =>
                      rw [hq] at hstep
                      cases qq with
                      | nil =>
                          cases hstep
                          rw [List.getElem?_set_ne hij, hi] at hi'
                          exact absurd ((Option.some_injective _ hi') ▸ hph) hne
                      | cons w rest =>
                          cases hstep
                          have hset : (c.threads.set j
                              { phase := Phase.run k, tok := tkj,
                                res := rsj })[i]? = some th := by
                            rw [List.getElem?_set_ne hij]
                            exact hi
                          by_cases hwi : w = i
                          · subst hwi
                            have hrw := resolveWaiter_not_waiting (c :=
                              Config.mk c.mon
                                (c.threads.set j
                                  { phase := Phase.run k, tok := tkj,
                                    res := rsj })
                                (c.cvs.set cvj rest) c.trace) true hset
                              (by intro _ _ _ _ hc; rw [hc] at hph; simp at hph)
                            rw [hrw] at hi'
                            have h2 : (Config.mk c.mon
                                (c.threads.set j
                                  { phase := Phase.run k, tok := tkj,
                                    res := rsj })
                                (c.cvs.set cvj rest) c.trace).threads[w]? =
                                some th := hset
                            rw [h2] at hi'
                            exact absurd ((Option.some_injective _ hi') ▸ hph)
                              hne
                          · have h2 : (resolveWaiter (Config.mk c.mon
                                (c.threads.set j
                                  { phase := Phase.run k, tok := tkj,
                                    res := rsj })
                                (c.cvs.set cvj rest) c.trace) w
                                  true).threads[i]? = some th := by
                              rw [resolveWaiter_at_other true hwi]
                              exact hset
                            exact absurd
                              ((Option.some_injective _ (h2.symm.trans hi')) ▸
                                hph) hne
          | broadcast cvj k =>
              dsimp only at hstep
              cases hlk : c.mon.locked with
              | false =>
                  rw [if_neg (by rw [hlk]; simp)] at hstep
                  exact Option.noConfusion hstep
              | true =>
                  rw [if_pos hlk] at hstep
                  cases hq : c.cvs[cvj]? with
                  | none =>
                      rw [hq] at hstep
                      exact Option.noConfusion hstep
                  | some q =>
                      rw [hq] at hstep
                      cases hstep
                      have hi1 : (Config.mk c.mon
                          (c.threads.set j
                            { phase := Phase.run k, tok := tkj, res := rsj })
                          (c.cvs.set cvj []) c.trace).threads[i]? =
                          some th := by
                        show (c.threads.set j
                          { phase := Phase.run k, tok := tkj,
                            res := rsj })[i]? = some th
                        rw [List.getElem?_set_ne hij]
                        exact hi
                      have h3 := resolveAll_not_waiting q hi1
                        (by intro _ _ _ _ hc; rw [hc] at hph; simp at hph)
                      exact absurd
                        ((Option.some_injective _ (h3.symm.trans hi')) ▸ hph)
                        hne
      | waitingCV cvj timedj svj pj =>
          have hij : j ≠ i := by
            intro hc
            subst hc
            rw [hi] at hthj
            have hth := Option.some_injective _ hthj
            rw [hth] at hph
            simp at hph
          cases timedj with
          | false => exact Option.noConfusion hstep
          | true =>
              dsimp only at hstep
              rw [if_pos rfl] at hstep
              cases hq : c.cvs[cvj]? with
              | none =>
                  rw [hq] at hstep
                  exact Option.noConfusion hstep
              | some q =>
                  rw [hq] at hstep
                  dsimp only at hstep
                  by_cases hmem : j ∈ q
                  · rw [if_pos hmem] at hstep
                    cases hstep
                    have h2 : (resolveWaiter (Config.mk c.mon c.threads
                        (c.cvs.set cvj (q.erase j)) c.trace) j
                          false).threads[i]? = some th := by
                      rw [resolveWaiter_at_other false hij]
                      exact hi
                    exact absurd
                      ((Option.some_injective _ (h2.symm.trans hi')) ▸ hph) hne
                  · rw [if_neg hmem] at hstep
                    exact Option.noConfusion hstep
      | blockedEnter pj => exact Option.noConfusion hstep
      | blockedReacq pj => exact Option.noConfusion hstep
      | terminated => exact Option.noConfusion hstep

/-- C4: wait outcome dichotomy.  (i) An untimed waiter takes no step of its
own: with no timeout no timer is armed and the wait is unbounded.  (ii) When
any step resolves a suspended wait (the waiter leaves its waiting phase), the
recorded outcome is signaled (`some true`), or — only for a timed wait, and
only by the waiter's own timer step — timed out (`some false`), never both;
and the waiter moves to the reacquisition phase (or, if the section was free,
directly back to running with its captured token), so the section is
reacquired before the wait returns.  (iii) When reacquisition is granted, the
waiter resumes its continuation holding the monitor's current owner token,
with the recorded outcome unchanged — so `wait` returns true iff signaled and
false iff timed out.  (iv) In the timed-wait scenario every terminal schedule
has the waiter observe the section held again and report exactly one outcome:
trace `[5, 1]` (signaled) or `[5, 2]` (timed out). -/
theorem C4_wait_outcome :
    (∀ (c : Config) (i : Nat) (th : Thread) (cv : Nat) (sv : LockOwner)
        (p : Prog), c.threads[i]? = some th →
      th.phase = Phase.waitingCV cv false sv p → stepThread c i = none) ∧
    (∀ (c c' : Config) (j i : Nat) (th th' : Thread) (cv : Nat) (ti : Bool)
        (sv : LockOwner) (p : Prog),
      stepThread c j = some c' → c.threads[i]? = some th →
      th.phase = Phase.waitingCV cv ti sv p → c'.threads[i]? = some th' →
      th'.phase ≠ Phase.waitingCV cv ti sv p →
      (th'.res = some true ∨ (th'.res = some false ∧ ti = true ∧ j = i)) ∧
        (th'.phase = Phase.blockedReacq p ∨
          (th'.phase = Phase.run p ∧ th'.tok = some sv))) ∧
    (∀ (c c' : Config) (j i : Nat) (th th' : Thread) (p : Prog),
      stepThread c j = some c' → c.threads[i]? = some th →
      th.phase = Phase.blockedReacq p → c'.threads[i]? = some th' →
      th'.phase ≠ Phase.blockedReacq p →
      th'.phase = Phase.run p ∧ th'.tok.isSome = true ∧
        c'.mon.owner = th'.tok ∧ th'.res = th.res) ∧
    (∀ c : Config, Reach waitOutcomeInit c → succs c = [] →
      c.trace = [5, 1] ∨ c.trace = [5, 2]) := by
  refine ⟨?_, ?_, ?_, ?_⟩
  · intro c i th cv sv p hi hph
    simp [stepThread, hi, hph]
  · intro c c' j i th th' cv ti sv p hstep hi hph hi' hne
    exact wait_resolution hstep hi hph hi' hne
  · intro c c' j i th th' p hstep hi hph hi' hne
    exact reacq_grant hstep hi hph hi' hne
  · intro c hr hterm
    have hok := final_check_of_reach waitOutcomeReach waitOutcomeInit
      (fun c : Config => decide (c.trace = [5, 1] ∨ c.trace = [5, 2]))
      (by decide) (by decide) (by decide) hr hterm
    exact of_decide_eq_true hok

/-- Witness for C4 at concrete inputs: the untimed waiter of the signal
scenario has no step of its own; in the wait-outcome scenario the signal step
leaves the waiter with outcome `some true` in the reacquisition phase, the
signaler's exit then resumes the waiter holding the monitor's current owner
token (its captured `⟨0, 1⟩`) with the outcome preserved, and the full
schedule terminates with trace `[5, 1]`. -/
theorem C4_wait_outcome_witness :
    stepThread signalOnceInit 0 = none ∧
    (waitEdgeB.threads[0]?.map Thread.res = some (some true) ∧
      waitEdgeB.threads[0]?.map Thread.phase =
        some (Phase.blockedReacq waitKont)) ∧
    (waitEdgeC.threads[0]?.map Thread.phase = some (Phase.run waitKont) ∧
      waitEdgeC.threads[0]?.map Thread.tok = some waitEdgeC.mon.owner ∧
      waitEdgeC.mon.owner = some { id := 0, count := 1 } ∧
      waitEdgeC.threads[0]?.map Thread.res = some (some true)) ∧
    ((runSteps waitOutcomeInit [0, 0, 1, 1, 1, 0, 0, 0, 0, 1]).trace =
        [5, 1] ∨
      (runSteps waitOutcomeInit [0, 0, 1, 1, 1, 0, 0, 0, 0, 1]).trace =
        [5, 2]) := by
  refine ⟨?_, ?_, ?_, ?_⟩
  · exact C4_wait_outcome.1 signalOnceInit 0
      { phase := Phase.waitingCV 0 false { id := 0, count := 1 }
          (Prog.push 1 (Prog.exit Prog.done)), tok := none, res := none }
      0 { id := 0, count := 1 } (Prog.push 1 (Prog.exit Prog.done)) rfl rfl
  · have h := C4_wait_outcome.2.1 waitEdgeA waitEdgeB 1 0
      { phase := Phase.waitingCV 0 true { id := 0, count := 1 } waitKont,
        tok := none, res := none }
      { phase := Phase.blockedReacq waitKont, tok := none, res := some true }
      0 true { id := 0, count := 1 } waitKont rfl rfl rfl rfl (by decide)
    rcases h with ⟨h1, h2⟩
    rcases h1 with h1 | ⟨_, _, hji⟩
    · rcases h2 with h2 | ⟨h2, _⟩
      · exact ⟨congrArg some h1, congrArg some h2⟩
      · exact absurd h2 (by decide)
    · exact absurd hji one_ne_zero
  · have h := C4_wait_outcome.2.2.1 waitEdgeB waitEdgeC 1 0
      { phase := Phase.blockedReacq waitKont, tok := none, res := some true }
      { phase := Phase.run waitKont, tok := some { id := 0, count := 1 },
        res := some true }
      waitKont rfl rfl rfl rfl (by decide)
    rcases h with ⟨h1, _, h3, h4⟩
    exact ⟨congrArg some h1, (congrArg some h3).symm, rfl, congrArg some h4⟩
  · exact C4_wait_outcome.2.2.2 _
      (reach_runSteps waitOutcomeInit [0, 0, 1, 1, 1, 0, 0, 0, 0, 1]
        (by decide))
      (by decide)
